import Mathlib

/-!
Verification development for the static code-graph builder of the `shift`
repository.  The embedding below is a shallow model, translated from
`src/src/backend/kuzu.ts` and the tree-walking synchronizer
`src/unnamed/part_004` (`ts-parser`):

* the Kuzu graph store is modelled as explicit lists of File rows, Function
  rows, HasFunction edges and Calls edges, with Cypher `MERGE` semantics
  (a `MERGE` with a full property pattern matches only when every listed
  property is equal; otherwise it attempts a create, which fails when a node
  with the same primary key already exists) and plain `DELETE` semantics
  (deleting a node that still has relationships outside the matched pattern
  is an error; a failed statement leaves the store unchanged);
* each `conn.query(...)` call of the source is one `issue` step on a
  connection state that records the store, the trace of issued queries, and
  a stream of injected engine failures (modelling a query raising);
* the TypeScript AST and checker (external `typescript` library) are
  modelled as data: a tree of nodes with the fields the source reads
  (`kind`, `pos`, `getStart`, `getEnd`, source file, name text) and a
  checker given by lookup functions (`getSymbolAtLocation`,
  `getDeclarations`, `getAliasedSymbol`, `getName`, `getTypeAtLocation`,
  `getPropertyOfType`);
* the unbounded recursions of the source (`visitNode`,
  `resolveSymbolToNode`) are written with explicit fuel; running out of fuel
  (`none`) models non-termination / unbounded recursion.
-/

/-! ## Characters and escaping

`escapeCypherString` is translated from `src/unnamed/part_004` lines 26-33.
`quoteEscape` is the inline `.replace(/'/g, "''")` used by
`src/src/backend/kuzu.ts` (lines 156, 176, 304, 319) for file paths and
function ids.  The quote, backslash, backtick and newline characters are
built from code points to keep the file free of delicate literals. -/

def sqChar : Char := Char.ofNat 39

def bsChar : Char := Char.ofNat 92

def btChar : Char := Char.ofNat 96

def nlChar : Char := Char.ofNat 10

/-- `.replace(/pat/g, rep)` for a one-character pattern, at the character
level (every pattern of the source is a single character). -/
def replaceAllChar (pat : Char) (rep : List Char) : List Char → List Char
  | [] => []
  | c :: rest => (if c = pat then rep else [c]) ++ replaceAllChar pat rep rest

/-- `String.prototype.trim()`: strip whitespace from both ends. -/
def trimChars (l : List Char) : List Char :=
  ((l.dropWhile Char.isWhitespace).reverse.dropWhile Char.isWhitespace).reverse

def escapeCypherString (s : String) : String :=
  String.mk (trimChars
    (replaceAllChar btChar [bsChar, btChar]
      (replaceAllChar bsChar [bsChar, bsChar]
        (replaceAllChar sqChar [sqChar, sqChar]
          (replaceAllChar nlChar [' '] s.data)))))

def quoteEscape (s : String) : String :=
  String.mk (replaceAllChar sqChar [sqChar, sqChar] s.data)

/-- Function id format: `<filePath>:<pos>` (template literal of the source). -/
def mkId (filePath : String) (pos : Nat) : String :=
  filePath ++ ":" ++ toString pos

/-! ## The graph store -/

/-- A row of the `Function` node table
(schema: `Function(id, name, startLine, startColumn, endLine, endColumn)`). -/
structure FunctionRow where
  id : String
  name : String
  startLine : Nat
  startColumn : Nat
  endLine : Nat
  endColumn : Nat
deriving DecidableEq, Repr

/-- The graph store contents: `File` rows, `Function` rows, `HasFunction`
edges (file path, function id) and `Calls` edges (caller id, callee id). -/
structure Store where
  files : List String
  funcs : List FunctionRow
  hasFunction : List (String × String)
  calls : List (String × String)
deriving DecidableEq, Repr

def emptyStore : Store := ⟨[], [], [], []⟩

/-- The queries the core issues, with the interpolated string values exactly
as they appear in the query text (i.e. after whatever escaping the calling
code applied). -/
inductive Query where
  | countFiles
  | createFile (path : String)
  | mergeFile (path : String)
  | matchFunctionsOfFile (path : String)
  | mergeFunction (row : FunctionRow)
  | mergeHasFunction (path : String) (funcId : String)
  | mergeCalls (callerId : String) (calleeId : String)
  | deleteCallsOf (funcId : String)
  | deleteFunctionOfFile (path : String) (funcId : String)
deriving DecidableEq, Repr

inductive QueryRes where
  | unit
  | count (n : Nat)
  | rows (rs : List FunctionRow)
deriving DecidableEq, Repr

def QueryRes.countD : QueryRes → Nat
  | .count n => n
  | _ => 0

def QueryRes.rowsD : QueryRes → List FunctionRow
  | .rows rs => rs
  | _ => []

/-- Result of `MATCH (f:File {path})-[:HasFunction]->(func:Function) RETURN func...`:
one row per matching `HasFunction` edge whose file node exists. -/
def functionsOfFile (s : Store) (path : String) : List FunctionRow :=
  if path ∈ s.files then
    s.hasFunction.filterMap fun e =>
      if e.1 = path then s.funcs.find? (fun r => r.id = e.2) else none
  else []

/-- Engine semantics of one query against a store.  `Except.error` models the
query raising (duplicated primary key on create, deleting a node that still
has relationships); a failed statement leaves the store unchanged. -/
def applyQuery : Query → Store → Except Unit (Store × QueryRes)
  | .countFiles, s => .ok (s, .count s.files.length)
  | .createFile p, s =>
      if p ∈ s.files then .error () else .ok ({ s with files := s.files ++ [p] }, .unit)
  | .mergeFile p, s =>
      if p ∈ s.files then .ok (s, .unit) else .ok ({ s with files := s.files ++ [p] }, .unit)
  | .matchFunctionsOfFile p, s => .ok (s, .rows (functionsOfFile s p))
  | .mergeFunction r, s =>
      if r ∈ s.funcs then .ok (s, .unit)
      else if s.funcs.any (fun r0 => r0.id = r.id) then .error ()
      else .ok ({ s with funcs := s.funcs ++ [r] }, .unit)
  | .mergeHasFunction p i, s =>
      if p ∈ s.files ∧ s.funcs.any (fun r => r.id = i) then
        if (p, i) ∈ s.hasFunction then .ok (s, .unit)
        else .ok ({ s with hasFunction := s.hasFunction ++ [(p, i)] }, .unit)
      else .ok (s, .unit)
  | .mergeCalls a b, s =>
      if s.funcs.any (fun r => r.id = a) ∧ s.funcs.any (fun r => r.id = b) then
        if (a, b) ∈ s.calls then .ok (s, .unit)
        else .ok ({ s with calls := s.calls ++ [(a, b)] }, .unit)
      else .ok (s, .unit)
  | .deleteCallsOf i, s =>
      if s.funcs.any (fun r => r.id = i) then
        .ok ({ s with calls := s.calls.filter (fun e => e.1 ≠ i ∧ e.2 ≠ i) }, .unit)
      else .ok (s, .unit)
  | .deleteFunctionOfFile p i, s =>
      if p ∈ s.files ∧ (p, i) ∈ s.hasFunction ∧ s.funcs.any (fun r => r.id = i) then
        if ((s.hasFunction.filter (fun e => e ≠ (p, i))).any (fun e => e.2 = i)
            ∨ s.calls.any (fun e => e.1 = i ∨ e.2 = i)) then .error ()
        else
          .ok ({ s with
                  hasFunction := s.hasFunction.filter (fun e => e ≠ (p, i)),
                  funcs := s.funcs.filter (fun r => r.id ≠ i) }, .unit)
      else .ok (s, .unit)

/-- A connection: store, trace of issued queries, and a stream of injected
engine failures (`true` at the head makes the next query raise regardless of
its semantics, modelling an arbitrary store-operation failure). -/
structure Conn where
  store : Store
  log : List Query
  fail : List Bool
deriving DecidableEq, Repr

/-- One `await conn.query(...)`: appends to the trace, consumes one failure
flag, and either raises (`Except.error`) or applies the query. -/
def issue (q : Query) (c : Conn) : Except Unit QueryRes × Conn :=
  let injected := c.fail.headD false
  let c1 : Conn := { c with log := c.log ++ [q], fail := c.fail.tail }
  if injected then (.error (), c1)
  else
    match applyQuery q c.store with
    | .error _ => (.error (), c1)
    | .ok (s, r) => (.ok r, { c1 with store := s })

/-! ## The TypeScript AST and checker model

Nodes carry the fields the source reads.  `children` models the child list a
traversal reaches (`getChildren()` / `forEachChild`); `sub` carries the
role-specific sub-nodes the source accesses by field: for a call expression
`[expression]`, for a property access `[expression, name]`, for a variable
declaration `[name, initial value]`, for an import specifier `[name]`.
Punctuation token children are irrelevant to every branch of the source
(they are never function-like, calls, variables or identifiers) and are
omitted when building concrete trees. -/

inductive TsKind where
  | functionDeclaration
  | methodDeclaration
  | constructorDeclaration
  | functionExpression
  | arrowFunction
  | getAccessor
  | setAccessor
  | callExpression
  | identifierKind
  | propertyAccess
  | importSpecifier
  | exportSpecifier
  | variableDeclaration
  | other
deriving DecidableEq, Repr

/-- The node fields the source reads: syntactic kind, `node.pos` (full start,
leading trivia included), `node.getStart()`, `node.getEnd()`, the name of the
node's source file (`getSourceFile().fileName`), the text of the node's name
or identifier where applicable, and a node identity `nid` used as the key of
the checker's per-node lookups. -/
structure NodeData where
  kind : TsKind
  pos : Nat
  startPos : Nat
  endPos : Nat
  file : String
  nameText : Option String
  nid : Nat
deriving DecidableEq, Repr

mutual
inductive TsNode where
  | mk (d : NodeData) (sub : TsList) (children : TsList)
inductive TsList where
  | nil
  | cons (head : TsNode) (tail : TsList)
end

def TsNode.data : TsNode → NodeData
  | .mk d _ _ => d

def TsNode.sub : TsNode → TsList
  | .mk _ s _ => s

def TsNode.children : TsNode → TsList
  | .mk _ _ c => c

def TsNode.kind (n : TsNode) : TsKind := n.data.kind

def TsNode.pos (n : TsNode) : Nat := n.data.pos

def TsNode.file (n : TsNode) : String := n.data.file

def TsList.get? : TsList → Nat → Option TsNode
  | .nil, _ => none
  | .cons h _, 0 => some h
  | .cons _ t, n + 1 => t.get? n

/-- `node.expression` of a call or property access (first role sub-node). -/
def TsNode.expr? (n : TsNode) : Option TsNode := n.sub.get? 0

/-- `node.name` of a property access (second role sub-node). -/
def TsNode.propName? (n : TsNode) : Option TsNode := n.sub.get? 1

/-- `decl.name` of a variable declaration or import specifier
(first role sub-node). -/
def TsNode.declName? (n : TsNode) : Option TsNode := n.sub.get? 0

/-- `decl.initializer` of a variable declaration (second role sub-node);
`none` models an absent field. -/
def TsNode.initValue? (n : TsNode) : Option TsNode :=
  if n.kind = .variableDeclaration then n.sub.get? 1 else none

/-- The duck-typed predicate `isFunctionLikeDeclaration` of the source
(`ts.isFunctionDeclaration || ts.isMethodDeclaration || ... || ts.isSetAccessor`). -/
def isFunctionLikeKind : TsKind → Bool
  | .functionDeclaration => true
  | .methodDeclaration => true
  | .constructorDeclaration => true
  | .functionExpression => true
  | .arrowFunction => true
  | .getAccessor => true
  | .setAccessor => true
  | _ => false

def isFunctionLikeDeclaration (n : TsNode) : Bool := isFunctionLikeKind n.kind

/-- `getFunctionName` from the source: the best-effort name of a
function-like node. -/
def getFunctionName (n : TsNode) : String :=
  match n.kind with
  | .functionDeclaration => (n.data.nameText).getD "anonymous"
  | .methodDeclaration => (n.data.nameText).getD ""
  | .getAccessor => (n.data.nameText).getD ""
  | .setAccessor => (n.data.nameText).getD ""
  | .constructorDeclaration => "constructor"
  | .functionExpression => (n.data.nameText).getD "anonymous"
  | .arrowFunction => "anonymous"
  | _ => "unknown"

/-- A source file: name, `isDeclarationFile` flag, the positions at which its
lines start (for `getLineAndCharacterOfPosition`), and the root node. -/
structure SrcFile where
  fileName : String
  isDecl : Bool
  lineStarts : List Nat
  root : TsNode

/-- The type checker as lookup data: `getSymbolAtLocation` keyed by node id,
`getDeclarations`, `getName`, `getAliasedSymbol` (total in the TypeScript
API: it returns a symbol, possibly the input itself), `getTypeAtLocation`
and `getPropertyOfType`. -/
structure Checker where
  symbolAt : Nat → Option Nat
  declsOf : Nat → List TsNode
  symName : Nat → String
  aliased : Nat → Nat
  typeAt : Nat → Nat
  propOfType : Nat → String → Option Nat

/-- `ts.Program`: the source files (in `getSourceFiles()` order) and the
checker. -/
structure TsProgram where
  files : List SrcFile
  checker : Checker

/-- The context threaded through `parseAndUpdateKuzu`: the program and the
file being parsed. -/
structure Ctx where
  prog : TsProgram
  sf : SrcFile

/-- `getLineAndCharacterOfPosition` (0-based): the last line start at or
before `pos`, and the offset from it. -/
def lineCharOf (lineStarts : List Nat) (pos : Nat) : Nat × Nat :=
  let idxs := (List.range lineStarts.length).filter
    (fun i => (lineStarts.get? i).getD 0 ≤ pos)
  match idxs.getLast? with
  | some i => (i, pos - (lineStarts.get? i).getD 0)
  | none => (0, pos)

/-- `getLocation` from the source: 1-based start/end line and column of a
node, computed from `getStart()` and `getEnd()`. -/
def getLocation (sf : SrcFile) (n : TsNode) : Nat × Nat × Nat × Nat :=
  let s := lineCharOf sf.lineStarts n.data.startPos
  let e := lineCharOf sf.lineStarts n.data.endPos
  (s.1 + 1, s.2 + 1, e.1 + 1, e.2 + 1)

/-- The `Function` row the synchronizer merges for a function-like node `n`
declared in file `sf` (both in `visitNode` and in
`createOrGetFunctionNode`): id and name pass through `escapeCypherString`,
the location is 1-based. -/
def functionRowOf (sf : SrcFile) (n : TsNode) : FunctionRow :=
  let loc := getLocation sf n
  { id := escapeCypherString (mkId sf.fileName n.pos)
    name := escapeCypherString (getFunctionName n)
    startLine := loc.1
    startColumn := loc.2.1
    endLine := loc.2.2.1
    endColumn := loc.2.2.2 }

/-! ## `createOrGetFunctionNode` and `resolveSymbolToNode`
(translated from `src/unnamed/part_004` lines 83-191). -/

/-- `createOrGetFunctionNode(targetNode, declSourceFile)`: for a
function-like target, `MERGE` its Function row and its HasFunction edge in
its own declaring file; each failure is logged and yields `null`
(here `none`).  Returns the escaped callee id on success. -/
def createOrGetFunctionNode (declSF : SrcFile) (target : TsNode) (c : Conn) :
    Option String × Conn :=
  let safeCalleeId := escapeCypherString (mkId declSF.fileName target.pos)
  if isFunctionLikeDeclaration target then
    match issue (Query.mergeFunction (functionRowOf declSF target)) c with
    | (.error _, c1) => (none, c1)
    | (.ok _, c1) =>
      match issue (Query.mergeHasFunction (escapeCypherString declSF.fileName)
          safeCalleeId) c1 with
      | (.error _, c2) => (none, c2)
      | (.ok _, c2) => (some safeCalleeId, c2)
  else (none, c)

/-- `resolveSymbolToNode(symbol)` with explicit recursion fuel.  The outer
`none` means the recursion did not complete within `fuel` steps (the source
recursion is unbounded); `some none` is the source's `null` (unresolved);
`some (some n)` is a resolved declaration node.

The source guards each recursive step only by `resolved symbol ≠ current
symbol`; cycles through two or more symbols are not detected. -/
def resolveSymbolToNode (env : Ctx) : Nat → Nat → Option (Option TsNode)
  | 0, _ => none
  | fuel + 1, sym =>
    match env.prog.checker.declsOf sym with
    | [] => some none
    | decl :: _ =>
      if isFunctionLikeDeclaration decl then some (some decl)
      else if decl.kind = .variableDeclaration then
        match decl.initValue? with
        | none => some none
        | some iv =>
          if isFunctionLikeDeclaration iv then some (some iv)
          else if iv.kind = .identifierKind then
            match env.prog.checker.symbolAt iv.data.nid with
            | some s2 => if s2 ≠ sym then resolveSymbolToNode env fuel s2 else some none
            | none => some none
          else some none
      else if decl.kind = .importSpecifier then
        match decl.declName? with
        | none => some none
        | some nm =>
          match env.prog.checker.symbolAt nm.data.nid with
          | some importSym =>
            if importSym ≠ sym then
              let exportedSym := env.prog.checker.aliased sym
              if exportedSym ≠ sym then resolveSymbolToNode env fuel exportedSym
              else some none
            else some none
          | none => some none
      else if decl.kind = .exportSpecifier then
        let exportedSym := env.prog.checker.aliased sym
        if exportedSym ≠ sym then resolveSymbolToNode env fuel exportedSym
        else some none
      else some none

/-! ## `findFunctionsWithNameInFile` and the id-collecting visitor -/

mutual
/-- `findFunctionsWithNameInFile`'s `visit`: collect function-like nodes
whose extracted name equals `nm`, and the initial values of variable
declarations named `nm` whose initial value is function-like
(`src/unnamed/part_004` lines 364-394). -/
def findFnsNode (nm : String) : TsNode → List TsNode
  | .mk d sub children =>
    (if isFunctionLikeDeclaration (.mk d sub children)
        ∧ getFunctionName (.mk d sub children) = nm
      then [TsNode.mk d sub children] else [])
    ++ (match (TsNode.mk d sub children).declName?,
          (TsNode.mk d sub children).initValue? with
        | some dn, some iv =>
          if dn.kind = .identifierKind ∧ dn.data.nameText = some nm
              ∧ isFunctionLikeDeclaration iv then [iv] else []
        | _, _ => [])
    ++ findFnsList nm children
def findFnsList (nm : String) : TsList → List TsNode
  | .nil => []
  | .cons h t => findFnsNode nm h ++ findFnsList nm t
end

def findFunctionsWithNameInFile (sf : SrcFile) (nm : String) : List TsNode :=
  findFnsNode nm sf.root

mutual
/-- The `visitor` of `updateKuzuDatabase` (`src/src/backend/kuzu.ts` lines
277-294): collect `<filePath>:<pos>` for every function-like node. -/
def collectIdsNode (fp : String) : TsNode → List String
  | .mk d _ children =>
    (if isFunctionLikeKind d.kind then [mkId fp d.pos] else [])
    ++ collectIdsList fp children
def collectIdsList (fp : String) : TsList → List String
  | .nil => []
  | .cons h t => collectIdsNode fp h ++ collectIdsList fp t
end

/-- `newFunctionIds` of `updateKuzuDatabase`: the visitor runs over the
root's children (`ts.forEachChild(sourceFile, visitor)`). -/
def collectFunctionIds (fp : String) (root : TsNode) : List String :=
  collectIdsList fp root.children

/-! ## The call-expression branch of `visitNode`
(`src/unnamed/part_004` lines 239-356). -/

/-- Determining `callExprSymbol`: for a property access, first
`getSymbolAtLocation(node.expression.name)`, then the fallback through
`getTypeAtLocation(node.expression.expression)` and `getPropertyOfType`;
for any other callee, `getSymbolAtLocation(node.expression)`. -/
def calleeSymbol (env : Ctx) (n : TsNode) : Option Nat :=
  match n.expr? with
  | none => none
  | some callee =>
    if callee.kind = .propertyAccess then
      match callee.propName? with
      | none => none
      | some nameNode =>
        match env.prog.checker.symbolAt nameNode.data.nid with
        | some s => some s
        | none =>
          match callee.expr? with
          | none => none
          | some objExpr =>
            env.prog.checker.propOfType (env.prog.checker.typeAt objExpr.data.nid)
              ((nameNode.data.nameText).getD "")
    else env.prog.checker.symbolAt callee.data.nid

/-- The inner loop of the name-based fallback: for each found function-like
node of one file, `createOrGetFunctionNode` and, on success, `MERGE` the
Calls edge (errors are logged and skipped). -/
def fallbackFile (sf : SrcFile) (safeCallerId : String) :
    List TsNode → Conn → Conn
  | [], c => c
  | fn :: rest, c =>
    match createOrGetFunctionNode sf fn c with
    | (some calleeId, c1) =>
      fallbackFile sf safeCallerId rest
        (issue (Query.mergeCalls safeCallerId calleeId) c1).2
    | (none, c1) => fallbackFile sf safeCallerId rest c1

/-- The name-based fallback scan over `program.getSourceFiles()`:
declaration files and the file being parsed are skipped
(`src/unnamed/part_004` lines 312-348). -/
def fallbackGo (env : Ctx) (nm : String) (safeCallerId : String) :
    List SrcFile → Conn → Conn
  | [], c => c
  | sf :: rest, c =>
    if sf.isDecl then fallbackGo env nm safeCallerId rest c
    else if sf.fileName = env.sf.fileName then fallbackGo env nm safeCallerId rest c
    else fallbackGo env nm safeCallerId rest
      (fallbackFile sf safeCallerId (findFunctionsWithNameInFile sf nm) c)

/-- The body of the call-expression branch (everything except the recursion
into children): symbol lookup, `resolveSymbolToNode`, the declaration-file
guard, callee upsert and Calls edge, or the name-based fallback.  `none`
models `resolveSymbolToNode` not completing.  Note that when
`getSymbolAtLocation` returns nothing the whole branch, the fallback
included, is skipped (`if (callExprSymbol) { ... }`). -/
def handleCall (env : Ctx) (fuel : Nat) (callerId : String) (n : TsNode)
    (c : Conn) : Option Conn :=
  let safeCallerId := escapeCypherString callerId
  match calleeSymbol env n with
  | none => some c
  | some sym =>
    match resolveSymbolToNode env fuel sym with
    | none => none
    | some (some target) =>
      match env.prog.files.find? (fun sf => sf.fileName = target.file) with
      | some declSF =>
        if declSF.isDecl then some c
        else
          match createOrGetFunctionNode declSF target c with
          | (some calleeId, c1) =>
            some (issue (Query.mergeCalls safeCallerId calleeId) c1).2
          | (none, c1) => some c1
      | none => some c
    | some none =>
      let nm := env.prog.checker.symName sym
      if nm ≠ "" ∧ nm ≠ "undefined" ∧ nm ≠ "__promisify__" then
        some (fallbackGo env nm safeCallerId env.prog.files c)
      else some c

/-! ## `visitNode` (`src/unnamed/part_004` lines 193-362)

A single fuel-indexed function over either one node or a list of sibling
nodes; every call consumes one unit of fuel, so any fuel at least the node
count of the tree suffices.  `none` models the traversal not completing
(only possible through `resolveSymbolToNode`'s unbounded recursion).  The
`functionStack` is the list parameter (head = top); the source pushes the
raw function id and escapes it at use. -/

def visitF (env : Ctx) : Nat → List String → Sum TsNode TsList → Conn →
    Option Conn
  | 0, _, _, _ => none
  | fuel + 1, stack, .inl n, c =>
    if isFunctionLikeDeclaration n then
      let funcId := mkId env.sf.fileName n.pos
      let row := functionRowOf env.sf n
      match issue (Query.mergeFunction row) c with
      | (.error _, c1) => some c1
      | (.ok _, c1) =>
        match issue (Query.mergeHasFunction (escapeCypherString env.sf.fileName)
            row.id) c1 with
        | (.error _, c2) => some c2
        | (.ok _, c2) =>
          visitF env fuel (funcId :: stack) (.inr n.children) c2
    else if n.kind = .callExpression ∧ stack ≠ [] then
      match handleCall env fuel (stack.headD "") n c with
      | none => none
      | some c1 => visitF env fuel stack (.inr n.children) c1
    else visitF env fuel stack (.inr n.children) c
  | _ + 1, _, .inr .nil, c => some c
  | fuel + 1, stack, .inr (.cons n rest), c =>
    match visitF env fuel stack (.inl n) c with
    | none => none
    | some c1 => visitF env fuel stack (.inr rest) c1

/-- `parseAndUpdateKuzu(conn, sourceFile, program, typeChecker)`: traverse
the file's tree from the root with an empty function stack.  Every store
failure inside is caught and logged, so the pass itself never throws; it can
only fail to complete (`none`). -/
def parseAndUpdateKuzu (env : Ctx) (fuel : Nat) (c : Conn) : Option Conn :=
  visitF env fuel [] (.inl env.sf.root) c

/-! ## `updateKuzuDatabase` (`src/src/backend/kuzu.ts` lines 169-334) -/

/-- Outcome of one of the two update entry points: normal completion or a
thrown exception (`throw ...error` in the source), with the connection state
at that point. -/
inductive Outcome where
  | ok (c : Conn)
  | thrown (c : Conn)
deriving DecidableEq, Repr

def Outcome.conn : Outcome → Conn
  | .ok c => c
  | .thrown c => c

/-- The first part of `updateKuzuDatabase`, up to and including the
`parseAndUpdateKuzu` call: query the file's existing functions (throws on
failure; the query/`getAll` pair is one failure point here), `MERGE` the
File node (throws on failure), then run the synchronizer. -/
inductive Stage1 where
  | thrown (c : Conn)
  | ok (rows : List FunctionRow) (c : Conn)
deriving DecidableEq, Repr

def stage1 (env : Ctx) (fuel : Nat) (c : Conn) : Option Stage1 :=
  let safeFilePath := quoteEscape env.sf.fileName
  match issue (Query.matchFunctionsOfFile safeFilePath) c with
  | (.error _, c1) => some (.thrown c1)
  | (.ok res, c1) =>
    match issue (Query.mergeFile safeFilePath) c1 with
    | (.error _, c2) => some (.thrown c2)
    | (.ok _, c2) =>
      match parseAndUpdateKuzu env fuel c2 with
      | none => none
      | some c3 => some (.ok res.rowsD c3)

/-- The pruning loop of `updateKuzuDatabase`: for each previously existing
function whose id is not among the new ids, delete its Calls edges (both
directions) and then the node with its HasFunction edge; both failures are
logged and the loop continues. -/
def pruneLoop (safeFilePath : String) (newIds : List String) :
    List FunctionRow → Conn → Conn
  | [], c => c
  | r :: rest, c =>
    if r.id ∈ newIds then pruneLoop safeFilePath newIds rest c
    else
      let c1 := (issue (Query.deleteCallsOf (quoteEscape r.id)) c).2
      let c2 := (issue (Query.deleteFunctionOfFile safeFilePath
        (quoteEscape r.id)) c1).2
      pruneLoop safeFilePath newIds rest c2

/-- `updateKuzuDatabase(filePath, content, conn)`: the incremental
single-file update.  The program over the updated file is the context
`env`; `content`'s parse is `env.sf.root`. -/
def updateKuzuDatabase (env : Ctx) (fuel : Nat) (c : Conn) : Option Outcome :=
  match stage1 env fuel c with
  | none => none
  | some (.thrown c1) => some (.thrown c1)
  | some (.ok rows c3) =>
    some (.ok (pruneLoop (quoteEscape env.sf.fileName)
      (collectFunctionIds env.sf.fileName env.sf.root) rows c3))

/-! ## `updateKuzuDatabaseForProject` (`src/src/backend/kuzu.ts` lines
99-167) -/

/-- The per-file loop of the bulk load: `CREATE` the File node (this call is
not wrapped in `tryCatch`, so a failure throws and aborts the whole loop),
then synchronize the file against the shared program. -/
def bulkGo (P : TsProgram) (fuel : Nat) : List String → Conn → Option Outcome
  | [], c => some (.ok c)
  | path :: rest, c =>
    match issue (Query.createFile (quoteEscape path)) c with
    | (.error _, c1) => some (.thrown c1)
    | (.ok _, c1) =>
      match P.files.find? (fun sf => sf.fileName = path) with
      | some sf =>
        match parseAndUpdateKuzu ⟨P, sf⟩ fuel c1 with
        | none => none
        | some c2 => bulkGo P fuel rest c2
      | none => bulkGo P fuel rest c1

/-- `updateKuzuDatabaseForProject(files, conn)`: count the File nodes (an
unwrapped query: a failure throws), return immediately when the store is
already populated, otherwise build the shared program (given here as `P`)
and process each input file in order. -/
def updateKuzuDatabaseForProject (P : TsProgram) (paths : List String)
    (fuel : Nat) (c : Conn) : Option Outcome :=
  match issue Query.countFiles c with
  | (.error _, c1) => some (.thrown c1)
  | (.ok res, c1) =>
    if 0 < res.countD then some (.ok c1)
    else bulkGo P fuel paths c1

/-! ## `initializeKuzu` (`src/src/backend/kuzu.ts` lines 42-97)

The storage directory is modelled as four optional tables (present with
contents, or absent).  `fs.rm(dbPath, {recursive, force})` is attempted
first; its failure is only logged.  Opening the database then uses whatever
is on disk (or a fresh empty directory), and the four `CREATE ... TABLE`
statements each throw when the table already exists; a thrown error is
rethrown by `initializeKuzu`. -/

structure DbState where
  fileTab : Option (List String)
  funcTab : Option (List FunctionRow)
  hasFunTab : Option (List (String × String))
  callsTab : Option (List (String × String))
deriving DecidableEq, Repr

def emptyDb : DbState := ⟨none, none, none, none⟩

def createFileTable (d : DbState) : Except Unit DbState :=
  if d.fileTab.isSome then .error () else .ok { d with fileTab := some [] }

def createFunctionTable (d : DbState) : Except Unit DbState :=
  if d.funcTab.isSome then .error () else .ok { d with funcTab := some [] }

def createHasFunctionTable (d : DbState) : Except Unit DbState :=
  if d.hasFunTab.isSome then .error () else .ok { d with hasFunTab := some [] }

def createCallsTable (d : DbState) : Except Unit DbState :=
  if d.callsTab.isSome then .error () else .ok { d with callsTab := some [] }

/-- `initializeKuzu(storagePath)`: `prev` is the database directory found at
the storage path (`none` when absent), `rmFails` tells whether the
`fs.rm` attempt failed (its failure is logged, not rethrown). -/
def initKuzu (prev : Option DbState) (rmFails : Bool) : Except Unit DbState :=
  let onDisk := if rmFails then prev else none
  let d0 := onDisk.getD emptyDb
  (((createFileTable d0).bind createFunctionTable).bind
    createHasFunctionTable).bind createCallsTable

/-- File count of the store a `DbState` exposes. -/
def dbCountFiles (d : DbState) : Nat := (d.fileTab.getD []).length

/-! ## Concrete scenario for the bulk-load property (claim C1)

Input files `u.ts` = `export function f(){}\n` and
`v.ts` = `import {f} from './u'\nfunction g(){ f() }\n`.

Node positions follow the TypeScript scanner: `node.pos` is the end of the
previous token (leading trivia included), `getStart()` skips trivia.  In
`u.ts` the function declaration spans 0..21 (`pos` 0).  In `v.ts` the import
declaration spans 0..21, the function declaration `g` has `pos` 21 (after
the import's last token) and `getStart()` 22, ending at 41; the call `f()`
has `pos` 35, `getStart()` 36, end 39.  At the call site
`getSymbolAtLocation` yields the import-alias symbol of `f` (symbol id 100),
whose only declaration is the import specifier; `getSymbolAtLocation` on the
specifier's own name yields the same alias symbol, so `resolveSymbolToNode`
falls through to `null` and the name-based fallback finds `f` in `u.ts`. -/

def uFuncF : TsNode :=
  .mk ⟨.functionDeclaration, 0, 0, 21, "u.ts", some "f", 1⟩ .nil .nil

def uRoot : TsNode :=
  .mk ⟨.other, 0, 0, 22, "u.ts", none, 0⟩ .nil (.cons uFuncF .nil)

def uSf : SrcFile := ⟨"u.ts", false, [0, 22], uRoot⟩

def vIdentFUse : TsNode :=
  .mk ⟨.identifierKind, 35, 36, 37, "v.ts", some "f", 10⟩ .nil .nil

def vCallF : TsNode :=
  .mk ⟨.callExpression, 35, 36, 39, "v.ts", none, 13⟩
    (.cons vIdentFUse .nil) (.cons vIdentFUse .nil)

def vFuncG : TsNode :=
  .mk ⟨.functionDeclaration, 21, 22, 41, "v.ts", some "g", 2⟩
    .nil (.cons vCallF .nil)

def vImportNameF : TsNode :=
  .mk ⟨.identifierKind, 8, 8, 9, "v.ts", some "f", 12⟩ .nil .nil

def vImportSpecF : TsNode :=
  .mk ⟨.importSpecifier, 8, 8, 9, "v.ts", some "f", 11⟩
    (.cons vImportNameF .nil) (.cons vImportNameF .nil)

def vImportDecl : TsNode :=
  .mk ⟨.other, 0, 0, 21, "v.ts", none, 14⟩ .nil (.cons vImportSpecF .nil)

def vRoot : TsNode :=
  .mk ⟨.other, 0, 0, 42, "v.ts", none, 3⟩ .nil
    (.cons vImportDecl (.cons vFuncG .nil))

def vSf : SrcFile := ⟨"v.ts", false, [0, 22, 42], vRoot⟩

def uvChecker : Checker where
  symbolAt := fun nid => if nid = 10 ∨ nid = 12 then some 100 else none
  declsOf := fun sym => if sym = 100 then [vImportSpecF] else []
  symName := fun sym => if sym = 100 then "f" else ""
  aliased := fun sym => sym
  typeAt := fun _ => 0
  propOfType := fun _ _ => none

def uvProgram : TsProgram := ⟨[uSf, vSf], uvChecker⟩

def connEmpty : Conn := ⟨emptyStore, [], []⟩

/-- Projection to the final store of a normally completed run. -/
def okStoreOf : Option Outcome → Option Store
  | some (.ok c) => some c.store
  | _ => none

/-- C1: bulk load (`updateKuzuDatabaseForProject`) on an empty store with
exactly `u.ts` (`export function f(){}`) and `v.ts`
(`import {f} from './u'` + `function g(){ f() }`) yields exactly 2 File
nodes (`u.ts`, `v.ts`), exactly 2 Function nodes (`f` declared in `u.ts`
with id `u.ts:0` and `g` declared in `v.ts` with id `v.ts:21`, ids of the
form `<path>:<offset>`), exactly 2 HasFunction edges (`u.ts`→`f`,
`v.ts`→`g`) and exactly 1 Calls edge `g`→`f`. -/
theorem bulk_load_two_file_scenario :
    okStoreOf (updateKuzuDatabaseForProject uvProgram ["u.ts", "v.ts"] 30
      connEmpty) =
    some ⟨["u.ts", "v.ts"],
      [⟨"u.ts:0", "f", 1, 1, 1, 22⟩, ⟨"v.ts:21", "g", 2, 1, 2, 20⟩],
      [("u.ts", "u.ts:0"), ("v.ts", "v.ts:21")],
      [("v.ts:21", "u.ts:0")]⟩ := by
  decide

/-! ## Concrete scenario for the incremental update (claims C2 and C3)

A store synchronized earlier for `a.ts` containing one function at offset 0
whose recorded name is `f`; the file is then edited so that the function at
offset 0 is named `g` (same id `a.ts:0`), in the C2 scenario with a new
nested arrow function at offset 5. -/

def aOldRow : FunctionRow := ⟨"a.ts:0", "f", 1, 1, 1, 10⟩

def aStore : Store :=
  ⟨["a.ts"], [aOldRow], [("a.ts", "a.ts:0")], []⟩

def aConn : Conn := ⟨aStore, [], []⟩

/-- New parse for C3: the function at offset 0 is now named `g`. -/
def aFuncRenamed : TsNode :=
  .mk ⟨.functionDeclaration, 0, 0, 12, "a.ts", some "g", 1⟩ .nil .nil

def aRootRenamed : TsNode :=
  .mk ⟨.other, 0, 0, 13, "a.ts", none, 0⟩ .nil (.cons aFuncRenamed .nil)

def aSfRenamed : SrcFile := ⟨"a.ts", false, [0], aRootRenamed⟩

def trivialChecker : Checker :=
  ⟨fun _ => none, fun _ => [], fun _ => "", fun s => s, fun _ => 0,
    fun _ _ => none⟩

def aEnvRenamed : Ctx := ⟨⟨[aSfRenamed], trivialChecker⟩, aSfRenamed⟩

/-- New parse for C2: the renamed function additionally contains a new
nested arrow function at offset 5 (id `a.ts:5`). -/
def aArrowNested : TsNode :=
  .mk ⟨.arrowFunction, 5, 6, 11, "a.ts", none, 2⟩ .nil .nil

def aFuncNested : TsNode :=
  .mk ⟨.functionDeclaration, 0, 0, 12, "a.ts", some "g", 1⟩ .nil
    (.cons aArrowNested .nil)

def aRootNested : TsNode :=
  .mk ⟨.other, 0, 0, 13, "a.ts", none, 0⟩ .nil (.cons aFuncNested .nil)

def aSfNested : SrcFile := ⟨"a.ts", false, [0], aRootNested⟩

def aEnvNested : Ctx := ⟨⟨[aSfNested], trivialChecker⟩, aSfNested⟩

/-! ## Scenario for claim C5: a file path containing a backslash -/

def fpBack : String := "a" ++ String.singleton bsChar ++ "b.ts"

def backRoot : TsNode := .mk ⟨.other, 0, 0, 1, fpBack, none, 0⟩ .nil .nil

def backSf : SrcFile := ⟨fpBack, false, [0], backRoot⟩

def backEnv : Ctx := ⟨⟨[backSf], trivialChecker⟩, backSf⟩

/-! ## Scenario for claim C6: the symbol lookup returns nothing, while
another known file contains a function with the callee's name -/

def mIdentH : TsNode :=
  .mk ⟨.identifierKind, 15, 15, 16, "m.ts", some "h", 50⟩ .nil .nil

def mCallH : TsNode :=
  .mk ⟨.callExpression, 14, 15, 19, "m.ts", none, 52⟩
    (.cons mIdentH .nil) (.cons mIdentH .nil)

def mFuncM : TsNode :=
  .mk ⟨.functionDeclaration, 0, 0, 21, "m.ts", some "m", 51⟩ .nil
    (.cons mCallH .nil)

def mRoot : TsNode :=
  .mk ⟨.other, 0, 0, 22, "m.ts", none, 53⟩ .nil (.cons mFuncM .nil)

def mSf : SrcFile := ⟨"m.ts", false, [0, 22], mRoot⟩

def nFuncH : TsNode :=
  .mk ⟨.functionDeclaration, 0, 0, 20, "n.ts", some "h", 60⟩ .nil .nil

def nRoot : TsNode :=
  .mk ⟨.other, 0, 0, 21, "n.ts", none, 61⟩ .nil (.cons nFuncH .nil)

def nSf : SrcFile := ⟨"n.ts", false, [0, 21], nRoot⟩

def mnEnv : Ctx := ⟨⟨[mSf, nSf], trivialChecker⟩, mSf⟩

def mnConn : Conn := ⟨⟨["m.ts", "n.ts"], [], [], []⟩, [], []⟩

/-! ## Scenario for claim C8: two variables initialized by each other
(`const a = b` and `const b = a`), a symbol cycle of length two -/

def cycNameA : TsNode :=
  .mk ⟨.identifierKind, 6, 6, 7, "c.ts", some "a", 110⟩ .nil .nil

def cycInitB : TsNode :=
  .mk ⟨.identifierKind, 9, 10, 11, "c.ts", some "b", 21⟩ .nil .nil

def cycVarA : TsNode :=
  .mk ⟨.variableDeclaration, 6, 6, 11, "c.ts", some "a", 112⟩
    (.cons cycNameA (.cons cycInitB .nil)) .nil

def cycNameB : TsNode :=
  .mk ⟨.identifierKind, 18, 18, 19, "c.ts", some "b", 111⟩ .nil .nil

def cycInitA : TsNode :=
  .mk ⟨.identifierKind, 21, 22, 23, "c.ts", some "a", 11⟩ .nil .nil

def cycVarB : TsNode :=
  .mk ⟨.variableDeclaration, 18, 18, 23, "c.ts", some "b", 113⟩
    (.cons cycNameB (.cons cycInitA .nil)) .nil

/-- The checker of the cyclic program: symbol 1 is `a` (declared by
`cycVarA`, whose initial value is the identifier `b`, node 21, resolving to
symbol 2), symbol 2 is `b` (declared by `cycVarB`, whose initial value is
the identifier `a`, node 11, resolving to symbol 1). -/
def cycChecker : Checker :=
  ⟨fun nid => if nid = 21 then some 2 else if nid = 11 then some 1 else none,
    fun s => if s = 1 then [cycVarA] else if s = 2 then [cycVarB] else [],
    fun _ => "", fun s => s, fun _ => 0, fun _ _ => none⟩

def cycSf : SrcFile :=
  ⟨"c.ts", false, [0], .mk ⟨.other, 0, 0, 1, "c.ts", none, 0⟩ .nil .nil⟩

def cycEnv : Ctx := ⟨⟨[cycSf], cycChecker⟩, cycSf⟩

/-! ## Scenario for claim C9: a call resolving into a declaration file -/

def libFunc : TsNode :=
  .mk ⟨.functionDeclaration, 0, 0, 30, "lib.d.ts", some "ambient", 70⟩
    .nil .nil

def libRoot : TsNode :=
  .mk ⟨.other, 0, 0, 31, "lib.d.ts", none, 71⟩ .nil (.cons libFunc .nil)

def libSf : SrcFile := ⟨"lib.d.ts", true, [0, 31], libRoot⟩

def xIdent : TsNode :=
  .mk ⟨.identifierKind, 10, 10, 17, "x.ts", some "ambient", 80⟩ .nil .nil

def xCall : TsNode :=
  .mk ⟨.callExpression, 9, 10, 19, "x.ts", none, 81⟩
    (.cons xIdent .nil) (.cons xIdent .nil)

def xRoot : TsNode :=
  .mk ⟨.other, 0, 0, 20, "x.ts", none, 82⟩ .nil (.cons xCall .nil)

def xSf : SrcFile := ⟨"x.ts", false, [0, 20], xRoot⟩

def libChecker : Checker :=
  ⟨fun nid => if nid = 80 then some 200 else none,
    fun s => if s = 200 then [libFunc] else [],
    fun s => if s = 200 then "ambient" else "", fun s => s, fun _ => 0,
    fun _ _ => none⟩

def libEnv : Ctx := ⟨⟨[xSf, libSf], libChecker⟩, xSf⟩

/-- C3: the incremental update does not update the attributes of a surviving
function.  Editing `a.ts` so that the function at offset 0 (id `a.ts:0`) is
renamed from `f` to `g` leaves the stored row's name as `f`: the full
attribute `MERGE` pattern does not match the existing row, the attempted
create collides with the primary key and fails, the failure is logged and
the node's remaining effects are skipped, so the stale attributes persist
(contradicting the source's own comment "This will add new functions and
update existing ones"). -/
theorem update_keeps_stale_attributes_on_rename :
    okStoreOf (updateKuzuDatabase aEnvRenamed 20 aConn) = some aStore ∧
    functionRowOf aSfRenamed aFuncRenamed = ⟨"a.ts:0", "g", 1, 1, 1, 13⟩ ∧
    aStore.funcs = [⟨"a.ts:0", "f", 1, 1, 1, 10⟩] := by
  decide

/-- C2 counterexample: a Function id occurring in the new parse need not
exist after the update.  With the function at offset 0 renamed (so its full
attribute `MERGE` fails on the primary key) and a new arrow function nested
inside it at offset 5, the traversal skips the subtree after the failed
merge: `a.ts:5` is among the ids of the new parse but no Function row with
that id exists after the update completes. -/
theorem update_misses_nested_function_after_id_conflict :
    okStoreOf (updateKuzuDatabase aEnvNested 20 aConn) = some aStore ∧
    "a.ts:5" ∈ collectFunctionIds "a.ts" aRootNested ∧
    (∀ r ∈ aStore.funcs, r.id ≠ "a.ts:5") := by
  decide

/-- C5 counterexample: the file path interpolated by the incremental update
(`updateKuzuDatabase` in `kuzu.ts`) only has its single quotes doubled; a
path containing a backslash is interpolated verbatim, which is not the
output of the escape routine (`escapeCypherString` would double the
backslash). -/
theorem update_interpolates_path_without_full_escape :
    updateKuzuDatabase backEnv 10 connEmpty =
      some (.ok ⟨⟨[fpBack], [], [], []⟩,
        [Query.matchFunctionsOfFile fpBack, Query.mergeFile fpBack], []⟩) ∧
    escapeCypherString fpBack ≠ fpBack := by
  decide

/-- C6 counterexample: when `getSymbolAtLocation` on the callee returns
nothing, the whole call branch, the name-based fallback included, is skipped
(`if (callExprSymbol) { ... }`), so no Calls edge is created even though a
non-declaration sibling file contains a function-like declaration whose
extracted name equals the callee name. -/
theorem lookup_none_skips_fallback :
    (parseAndUpdateKuzu mnEnv 20 mnConn).map (fun c => c.store.calls) =
      some [] ∧
    (findFunctionsWithNameInFile nSf "h").length = 1 ∧
    nSf.isDecl = false ∧
    trivialChecker.symbolAt 50 = none := by
  exact ⟨by decide, rfl, rfl, rfl⟩

/-- C7 counterexample: bulk load does not continue to the next file after a
failed store operation for one file.  When the `CREATE` of the first file's
File node raises, the exception propagates (the call is not wrapped in
`tryCatch`): the run ends thrown after two queries and no query for the
second file is ever issued. -/
theorem bulk_aborts_on_file_create_failure :
    updateKuzuDatabaseForProject uvProgram ["u.ts", "v.ts"] 30
      ⟨emptyStore, [], [false, true]⟩ =
      some (.thrown ⟨emptyStore,
        [Query.countFiles, Query.createFile "u.ts"], []⟩) ∧
    Query.createFile "v.ts" ∉ [Query.countFiles, Query.createFile "u.ts"] := by
  decide

/-- C8: `resolveSymbolToNode` does not terminate on a declaration cycle of
length two (`const a = b` and `const b = a`): at every recursion depth the
resolution of either symbol is still incomplete, because the only cycle
guard compares the next symbol with the current one and cannot see a cycle
through two or more symbols. -/
theorem resolve_mutual_cycle_never_completes :
    ∀ fuel, resolveSymbolToNode cycEnv fuel 1 = none ∧
      resolveSymbolToNode cycEnv fuel 2 = none := by
  intro fuel
  induction fuel with
  | zero => exact ⟨rfl, rfl⟩
  | succ n ih =>
    refine ⟨?_, ?_⟩
    · have h : resolveSymbolToNode cycEnv (n + 1) 1 =
          resolveSymbolToNode cycEnv n 2 := rfl
      rw [h]
      exact ih.2
    · have h : resolveSymbolToNode cycEnv (n + 1) 2 =
          resolveSymbolToNode cycEnv n 1 := rfl
      rw [h]
      exact ih.1

/-- C4: for every store with a positive file count and every input list,
bulk load is a no-op: whatever the outcome (the early return, or a thrown
count query), the store is unchanged and the only query issued is the
file-count query. -/
theorem bulk_load_populated_noop (P : TsProgram) (paths : List String)
    (fuel : Nat) (c : Conn) (h : 0 < c.store.files.length) :
    (updateKuzuDatabaseForProject P paths fuel c).map
      (fun o => (o.conn.store, o.conn.log)) =
    some (c.store, c.log ++ [Query.countFiles]) := by
  rcases c with ⟨s, l, f⟩
  simp only at h
  cases f with
  | nil =>
    simp [updateKuzuDatabaseForProject, issue, applyQuery, QueryRes.countD,
      Outcome.conn, h]
  | cons b t =>
    cases b with
    | false =>
      simp [updateKuzuDatabaseForProject, issue, applyQuery, QueryRes.countD,
        Outcome.conn, h]
    | true => simp [updateKuzuDatabaseForProject, issue, Outcome.conn]

/-- Witness for `bulk_load_populated_noop` at a store holding one file. -/
theorem bulk_load_populated_noop_witness :
    0 < (Conn.mk ⟨["p.ts"], [], [], []⟩ [] []).store.files.length ∧
    (updateKuzuDatabaseForProject uvProgram ["u.ts"] 5
        ⟨⟨["p.ts"], [], [], []⟩, [], []⟩).map
      (fun o => (o.conn.store, o.conn.log)) =
    some ((⟨⟨["p.ts"], [], [], []⟩, [], []⟩ : Conn).store,
      (⟨⟨["p.ts"], [], [], []⟩, [], []⟩ : Conn).log ++ [Query.countFiles]) :=
  ⟨by decide,
    bulk_load_populated_noop uvProgram ["u.ts"] 5
      ⟨⟨["p.ts"], [], [], []⟩, [], []⟩ (by decide)⟩

/-- C9: a call whose callee resolves to a declaration located in a
declaration-only file produces nothing: the call branch issues no query and
leaves the connection unchanged (no Function node, no HasFunction edge, no
Calls edge), and the name-based fallback scan skips declaration-only files
entirely. -/
theorem declaration_file_calls_excluded :
    (∀ (env : Ctx) (fuel : Nat) (callerId : String) (n : TsNode) (c : Conn)
        (sym : Nat) (target : TsNode) (declSF : SrcFile),
      calleeSymbol env n = some sym →
      resolveSymbolToNode env fuel sym = some (some target) →
      env.prog.files.find? (fun sf => sf.fileName = target.file) =
        some declSF →
      declSF.isDecl = true →
      handleCall env fuel callerId n c = some c)
    ∧ (∀ (env : Ctx) (nm callerId : String) (sf : SrcFile)
        (rest : List SrcFile) (c : Conn), sf.isDecl = true →
      fallbackGo env nm callerId (sf :: rest) c =
        fallbackGo env nm callerId rest c) := by
  constructor
  · intro env fuel callerId n c sym target declSF h1 h2 h3 h4
    simp [handleCall, h1, h2, h3, h4]
  · intro env nm callerId sf rest c h
    simp [fallbackGo, h]

/-- Witness for `declaration_file_calls_excluded`: a call in `x.ts`
resolving to a function declared in `lib.d.ts` leaves the connection
unchanged, and the fallback scan over `[lib.d.ts]` equals the scan over no
files. -/
theorem declaration_file_calls_excluded_witness :
    handleCall libEnv 5 "caller" xCall mnConn = some mnConn ∧
    fallbackGo libEnv "h" "cid" [libSf] mnConn =
      fallbackGo libEnv "h" "cid" [] mnConn :=
  ⟨declaration_file_calls_excluded.1 libEnv 5 "caller" xCall mnConn 200
      libFunc libSf rfl rfl rfl rfl,
    declaration_file_calls_excluded.2 libEnv "h" "cid" libSf [] mnConn rfl⟩

/-- C10: every successful run of `initializeKuzu` ends with a freshly
created schema holding no rows at all: whatever was on disk before and
whether or not the `fs.rm` attempt succeeded, a successful run yields the
empty database, so `countFiles()` is 0 and the bulk loader's
"already populated" branch (`count > 0`) cannot be taken on the returned
connection. -/
theorem init_yields_empty_store (prev : Option DbState) (rmFails : Bool)
    (d : DbState) (h : initKuzu prev rmFails = .ok d) :
    d = ⟨some [], some [], some [], some []⟩ ∧ dbCountFiles d = 0 := by
  simp only [initKuzu] at h
  rcases hd : (if rmFails then prev else none).getD emptyDb with ⟨ft, fc, hf, cl⟩
  rw [hd] at h
  cases ft <;> cases fc <;> cases hf <;> cases cl <;>
    simp [createFileTable, createFunctionTable, createHasFunctionTable,
      createCallsTable, Except.bind] at h <;>
    exact ⟨h.symm, by rw [← h]; rfl⟩

/-- Witness for `init_yields_empty_store`: initializing over a populated
previous database (the `fs.rm` having succeeded) succeeds and yields the
empty store. -/
theorem init_yields_empty_store_witness :
    initKuzu (some ⟨some ["old.ts"], some [⟨"old.ts:0", "f", 1, 1, 1, 2⟩],
        some [("old.ts", "old.ts:0")], some []⟩) false =
      .ok ⟨some [], some [], some [], some []⟩ ∧
    ((⟨some [], some [], some [], some []⟩ : DbState) =
        ⟨some [], some [], some [], some []⟩ ∧
      dbCountFiles ⟨some [], some [], some [], some []⟩ = 0) :=
  ⟨rfl,
    init_yields_empty_store
      (some ⟨some ["old.ts"], some [⟨"old.ts:0", "f", 1, 1, 1, 2⟩],
        some [("old.ts", "old.ts:0")], some []⟩) false
      ⟨some [], some [], some [], some []⟩ rfl⟩

/-! ## Invariants of the synchronizer pass

`StoreSub` is pointwise containment of the four row lists; the synchronizer
only ever merges, so its pass extends the store.  `EscapedQuery` says a
query is one of the three merge queries of the synchronizer and every string
it interpolates is the output of `escapeCypherString`.  `ParStep` bundles
the invariants of the parse pass: the store grows, an empty injected-failure
stream stays empty, and the trace is extended by escaped merge queries
only. -/

def StoreSub (s t : Store) : Prop :=
  s.files ⊆ t.files ∧ s.funcs ⊆ t.funcs ∧ s.hasFunction ⊆ t.hasFunction ∧
    s.calls ⊆ t.calls

theorem storeSub_refl (s : Store) : StoreSub s s :=
  ⟨List.Subset.refl _, List.Subset.refl _, List.Subset.refl _,
    List.Subset.refl _⟩

theorem storeSub_trans {s t u : Store} (h1 : StoreSub s t) (h2 : StoreSub t u) :
    StoreSub s u :=
  ⟨h1.1.trans h2.1, h1.2.1.trans h2.2.1, h1.2.2.1.trans h2.2.2.1,
    h1.2.2.2.trans h2.2.2.2⟩

def InEsc (s : String) : Prop := ∃ t, s = escapeCypherString t

def EscapedQuery : Query → Prop
  | .mergeFunction r => InEsc r.id ∧ InEsc r.name
  | .mergeHasFunction p i => InEsc p ∧ InEsc i
  | .mergeCalls a b => InEsc a ∧ InEsc b
  | _ => False

def ParStep (c c' : Conn) : Prop :=
  StoreSub c.store c'.store ∧ (c.fail = [] → c'.fail = []) ∧
    (∃ l, c'.log = c.log ++ l ∧ ∀ q ∈ l, EscapedQuery q)

theorem parStep_refl (c : Conn) : ParStep c c :=
  ⟨storeSub_refl _, fun h => h, [], by simp, by simp⟩

theorem parStep_trans {a b c : Conn} (h1 : ParStep a b) (h2 : ParStep b c) :
    ParStep a c := by
  refine ⟨storeSub_trans h1.1 h2.1, fun h => h2.2.1 (h1.2.1 h), ?_⟩
  obtain ⟨l1, hl1, he1⟩ := h1.2.2
  obtain ⟨l2, hl2, he2⟩ := h2.2.2
  refine ⟨l1 ++ l2, by rw [hl2, hl1, List.append_assoc], ?_⟩
  intro q hq
  rcases List.mem_append.mp hq with h | h
  · exact he1 q h
  · exact he2 q h

/-- The three merge queries of the synchronizer never shrink the store. -/
theorem applyQuery_sub (q : Query) (s0 s : Store) (r : QueryRes)
    (h : applyQuery q s0 = .ok (s, r)) (hq : EscapedQuery q) :
    StoreSub s0 s := by
  cases q with
  | mergeFunction row =>
    simp only [applyQuery] at h
    split at h
    · cases h; exact storeSub_refl _
    · split at h
      · cases h
      · cases h
        exact ⟨List.Subset.refl _, List.subset_append_left _ _,
          List.Subset.refl _, List.Subset.refl _⟩
  | mergeHasFunction p i =>
    simp only [applyQuery] at h
    split at h
    · split at h
      · cases h; exact storeSub_refl _
      · cases h
        exact ⟨List.Subset.refl _, List.Subset.refl _,
          List.subset_append_left _ _, List.Subset.refl _⟩
    · cases h; exact storeSub_refl _
  | mergeCalls a b =>
    simp only [applyQuery] at h
    split at h
    · split at h
      · cases h; exact storeSub_refl _
      · cases h
        exact ⟨List.Subset.refl _, List.Subset.refl _, List.Subset.refl _,
          List.subset_append_left _ _⟩
    · cases h; exact storeSub_refl _
  | countFiles => cases hq
  | createFile p => cases hq
  | mergeFile p => cases hq
  | matchFunctionsOfFile p => cases hq
  | deleteCallsOf i => cases hq
  | deleteFunctionOfFile p i => cases hq

theorem issue_snd_fail (q : Query) (c : Conn) :
    ((issue q c).2).fail = c.fail.tail := by
  unfold issue
  dsimp only
  split
  · rfl
  · split <;> rfl

theorem issue_snd_log (q : Query) (c : Conn) :
    ((issue q c).2).log = c.log ++ [q] := by
  unfold issue
  dsimp only
  split
  · rfl
  · split <;> rfl

/-- Issuing an escaped merge query is a `ParStep`. -/
theorem issue_par (q : Query) (c : Conn) (hq : EscapedQuery q) :
    ParStep c ((issue q c).2) := by
  refine ⟨?_, ?_, [q], issue_snd_log q c, by simpa using hq⟩
  · unfold issue
    dsimp only
    split
    · exact storeSub_refl _
    · split
      · exact storeSub_refl _
      · rename_i s r heq
        exact applyQuery_sub q c.store s r heq hq
  · intro h
    rw [issue_snd_fail, h]
    rfl

theorem createOrGet_par (declSF : SrcFile) (target : TsNode) (c : Conn) :
    ParStep c (createOrGetFunctionNode declSF target c).2 := by
  unfold createOrGetFunctionNode
  dsimp only
  split
  · split
    · rename_i c1 heq
      have := issue_par (Query.mergeFunction (functionRowOf declSF target)) c
        ⟨⟨_, rfl⟩, ⟨_, rfl⟩⟩
      rw [heq] at this
      exact this
    · rename_i r1 c1 heq
      have h1 := issue_par (Query.mergeFunction (functionRowOf declSF target)) c
        ⟨⟨_, rfl⟩, ⟨_, rfl⟩⟩
      rw [heq] at h1
      split
      · rename_i c2 heq2
        have h2 := issue_par (Query.mergeHasFunction
          (escapeCypherString declSF.fileName)
          (escapeCypherString (mkId declSF.fileName target.pos))) c1
          ⟨⟨_, rfl⟩, ⟨_, rfl⟩⟩
        rw [heq2] at h2
        exact parStep_trans h1 h2
      · rename_i r2 c2 heq2
        have h2 := issue_par (Query.mergeHasFunction
          (escapeCypherString declSF.fileName)
          (escapeCypherString (mkId declSF.fileName target.pos))) c1
          ⟨⟨_, rfl⟩, ⟨_, rfl⟩⟩
        rw [heq2] at h2
        exact parStep_trans h1 h2
  · exact parStep_refl c

theorem createOrGet_some_esc (declSF : SrcFile) (target : TsNode) (c : Conn)
    (i : String) (h : (createOrGetFunctionNode declSF target c).1 = some i) :
    InEsc i := by
  unfold createOrGetFunctionNode at h
  dsimp only at h
  split at h
  · split at h
    · cases h
    · split at h
      · cases h
      · cases h
        exact ⟨_, rfl⟩
  · cases h

theorem fallbackFile_par (sf : SrcFile) (cid : String) (hcid : InEsc cid) :
    ∀ (fns : List TsNode) (c : Conn), ParStep c (fallbackFile sf cid fns c)
  | [], c => parStep_refl c
  | fn :: rest, c => by
    unfold fallbackFile
    split
    · rename_i calleeId c1 heq
      have h1 := createOrGet_par sf fn c
      rw [heq] at h1
      have hesc : InEsc calleeId := by
        have := createOrGet_some_esc sf fn c calleeId
        rw [heq] at this
        exact this rfl
      have h2 := issue_par (Query.mergeCalls cid calleeId) c1 ⟨hcid, hesc⟩
      exact parStep_trans (parStep_trans h1 h2) (fallbackFile_par sf cid hcid rest _)
    · rename_i c1 heq
      have h1 := createOrGet_par sf fn c
      rw [heq] at h1
      exact parStep_trans h1 (fallbackFile_par sf cid hcid rest c1)

theorem fallbackGo_par (env : Ctx) (nm : String) (cid : String)
    (hcid : InEsc cid) :
    ∀ (fs : List SrcFile) (c : Conn), ParStep c (fallbackGo env nm cid fs c)
  | [], c => parStep_refl c
  | sf :: rest, c => by
    unfold fallbackGo
    split
    · exact fallbackGo_par env nm cid hcid rest c
    · split
      · exact fallbackGo_par env nm cid hcid rest c
      · exact parStep_trans (fallbackFile_par sf cid hcid _ c)
          (fallbackGo_par env nm cid hcid rest _)

theorem handleCall_par (env : Ctx) (fuel : Nat) (callerId : String)
    (n : TsNode) (c c' : Conn) (h : handleCall env fuel callerId n c = some c') :
    ParStep c c' := by
  unfold handleCall at h
  dsimp only at h
  cases hcs : calleeSymbol env n with
  | none => rw [hcs] at h; cases h; exact parStep_refl _
  | some sym =>
    rw [hcs] at h
    dsimp only at h
    cases hr : resolveSymbolToNode env fuel sym with
    | none => rw [hr] at h; cases h
    | some tOpt =>
      rw [hr] at h
      cases tOpt with
      | some target =>
        dsimp only at h
        cases hf : env.prog.files.find? (fun sf => sf.fileName = target.file) with
        | none => rw [hf] at h; cases h; exact parStep_refl _
        | some declSF =>
          rw [hf] at h
          dsimp only at h
          by_cases hd : declSF.isDecl = true
          · rw [if_pos hd] at h; cases h; exact parStep_refl _
          · rw [if_neg hd] at h
            rcases hcg : createOrGetFunctionNode declSF target c with ⟨res, c1⟩
            rw [hcg] at h
            have h1 := createOrGet_par declSF target c
            rw [hcg] at h1
            cases res with
            | some calleeId =>
              cases h
              have hesc : InEsc calleeId := by
                have h2 := createOrGet_some_esc declSF target c calleeId
                rw [hcg] at h2
                exact h2 rfl
              exact parStep_trans h1 (issue_par (Query.mergeCalls
                (escapeCypherString callerId) calleeId) c1 ⟨⟨_, rfl⟩, hesc⟩)
            | none => cases h; exact h1
      | none =>
        by_cases hn : env.prog.checker.symName sym ≠ ""
            ∧ env.prog.checker.symName sym ≠ "undefined"
            ∧ env.prog.checker.symName sym ≠ "__promisify__"
        · rw [if_pos hn] at h
          cases h
          exact fallbackGo_par env _ _ ⟨_, rfl⟩ env.prog.files c
        · rw [if_neg hn] at h; cases h; exact parStep_refl _

theorem visitF_par (env : Ctx) :
    ∀ (fuel : Nat) (stack : List String) (inp : Sum TsNode TsList)
      (c c' : Conn), visitF env fuel stack inp c = some c' → ParStep c c' := by
  intro fuel
  induction fuel with
  | zero => intro stack inp c c' h; cases h
  | succ m ih =>
    intro stack inp c c' h
    match inp with
    | .inl n =>
      unfold visitF at h
      by_cases hfl : isFunctionLikeDeclaration n = true
      · rw [if_pos hfl] at h
        dsimp only at h
        rcases hq1 : issue (Query.mergeFunction (functionRowOf env.sf n)) c
          with ⟨res1, c1⟩
        rw [hq1] at h
        have h1 := issue_par (Query.mergeFunction (functionRowOf env.sf n)) c
          ⟨⟨_, rfl⟩, ⟨_, rfl⟩⟩
        rw [hq1] at h1
        cases res1 with
        | error e => cases h; exact h1
        | ok r1 =>
          dsimp only at h
          rcases hq2 : issue (Query.mergeHasFunction
            (escapeCypherString env.sf.fileName)
            (functionRowOf env.sf n).id) c1 with ⟨res2, c2⟩
          rw [hq2] at h
          have h2 := issue_par (Query.mergeHasFunction
            (escapeCypherString env.sf.fileName)
            (functionRowOf env.sf n).id) c1 ⟨⟨_, rfl⟩, ⟨_, rfl⟩⟩
          rw [hq2] at h2
          cases res2 with
          | error e => cases h; exact parStep_trans h1 h2
          | ok r2 => exact parStep_trans (parStep_trans h1 h2) (ih _ _ _ _ h)
      · rw [if_neg hfl] at h
        by_cases hck : n.kind = TsKind.callExpression ∧ stack ≠ []
        · rw [if_pos hck] at h
          cases hhc : handleCall env m (stack.headD "") n c with
          | none => rw [hhc] at h; cases h
          | some c1 =>
            rw [hhc] at h
            exact parStep_trans (handleCall_par env m _ n c c1 hhc) (ih _ _ _ _ h)
        · rw [if_neg hck] at h
          exact ih _ _ _ _ h
    | .inr .nil =>
      unfold visitF at h
      cases h
      exact parStep_refl _
    | .inr (.cons nd rest) =>
      unfold visitF at h
      cases hv : visitF env m stack (.inl nd) c with
      | none => rw [hv] at h; cases h
      | some c1 =>
        rw [hv] at h
        exact parStep_trans (ih _ _ _ _ hv) (ih _ _ _ _ h)

def Stage1.conn : Stage1 → Conn
  | .thrown c => c
  | .ok _ c => c

/-- Helper for the escaping discipline: whatever `stage1` returns, the first
query it issued interpolates the file path with single-quote doubling only
(`quoteEscape`), not `escapeCypherString`. -/
theorem stage1_first_query (env : Ctx) (fuel : Nat) (c : Conn) (st : Stage1)
    (h : stage1 env fuel c = some st) :
    ∃ tail, st.conn.log = c.log ++
      Query.matchFunctionsOfFile (quoteEscape env.sf.fileName) :: tail := by
  unfold stage1 at h
  dsimp only at h
  rcases hq1 : issue (Query.matchFunctionsOfFile (quoteEscape env.sf.fileName))
    c with ⟨res1, c1⟩
  rw [hq1] at h
  have hl1 : c1.log = c.log ++
      [Query.matchFunctionsOfFile (quoteEscape env.sf.fileName)] := by
    have := issue_snd_log
      (Query.matchFunctionsOfFile (quoteEscape env.sf.fileName)) c
    rw [hq1] at this
    exact this
  cases res1 with
  | error e => cases h; exact ⟨[], by simp [Stage1.conn, hl1]⟩
  | ok r1 =>
    dsimp only at h
    rcases hq2 : issue (Query.mergeFile (quoteEscape env.sf.fileName)) c1
      with ⟨res2, c2⟩
    rw [hq2] at h
    have hl2 : c2.log = c1.log ++
        [Query.mergeFile (quoteEscape env.sf.fileName)] := by
      have := issue_snd_log (Query.mergeFile (quoteEscape env.sf.fileName)) c1
      rw [hq2] at this
      exact this
    cases res2 with
    | error e =>
      cases h
      exact ⟨[Query.mergeFile (quoteEscape env.sf.fileName)],
        by simp [Stage1.conn, hl2, hl1]⟩
    | ok r2 =>
      dsimp only at h
      cases hv : parseAndUpdateKuzu env fuel c2 with
      | none => rw [hv] at h; cases h
      | some c3 =>
        rw [hv] at h
        cases h
        obtain ⟨l, hl, _⟩ := (visitF_par env fuel [] _ c2 c3 hv).2.2
        exact ⟨Query.mergeFile (quoteEscape env.sf.fileName) :: l,
          by simp [Stage1.conn, hl, hl2, hl1]⟩

/-- C5 amended: the escaping discipline is split.  The synchronizer
(`parseAndUpdateKuzu`) passes every interpolated string value through
`escapeCypherString` (every query its traversal adds to the trace is an
escaped merge query); but `kuzu.ts` interpolates file paths and function
ids with single-quote doubling only, as witnessed by the first query of the
incremental update. -/
theorem escaping_discipline :
    (∀ (env : Ctx) (fuel : Nat) (stack : List String)
        (inp : Sum TsNode TsList) (c c' : Conn),
      visitF env fuel stack inp c = some c' →
      ∀ q ∈ c'.log, q ∈ c.log ∨ EscapedQuery q)
    ∧ (∀ (env : Ctx) (fuel : Nat) (c : Conn) (st : Stage1),
      stage1 env fuel c = some st →
      ∃ tail, st.conn.log = c.log ++
        Query.matchFunctionsOfFile (quoteEscape env.sf.fileName) :: tail) := by
  constructor
  · intro env fuel stack inp c c' h q hq
    obtain ⟨l, hl, he⟩ := (visitF_par env fuel stack inp c c' h).2.2
    rw [hl] at hq
    rcases List.mem_append.mp hq with hmem | hmem
    · exact Or.inl hmem
    · exact Or.inr (he q hmem)
  · exact stage1_first_query

/-- Witness for `escaping_discipline`: the synchronizer pass over `m.ts`
issues only escaped merge queries, and the incremental update of `a.ts`
opens its trace with the quote-doubled file path. -/
theorem escaping_discipline_witness :
    (∀ q ∈ (Conn.mk ⟨["m.ts", "n.ts"],
        [⟨"m.ts:0", "m", 1, 1, 1, 22⟩], [("m.ts", "m.ts:0")], []⟩
        [Query.mergeFunction ⟨"m.ts:0", "m", 1, 1, 1, 22⟩,
          Query.mergeHasFunction "m.ts" "m.ts:0"] []).log,
      q ∈ mnConn.log ∨ EscapedQuery q)
    ∧ (∃ tail, (Stage1.ok [⟨"a.ts:0", "f", 1, 1, 1, 10⟩]
        ⟨⟨["a.ts"], [⟨"a.ts:0", "f", 1, 1, 1, 10⟩], [("a.ts", "a.ts:0")], []⟩,
          [Query.matchFunctionsOfFile "a.ts", Query.mergeFile "a.ts",
            Query.mergeFunction ⟨"a.ts:0", "g", 1, 1, 1, 13⟩], []⟩).conn.log =
      aConn.log ++
        Query.matchFunctionsOfFile (quoteEscape aEnvRenamed.sf.fileName)
          :: tail) :=
  ⟨escaping_discipline.1 mnEnv 20 [] (.inl mRoot) mnConn _ (by decide),
    escaping_discipline.2 aEnvRenamed 20 aConn _ (by decide)⟩

/-- A `MATCH ... RETURN` query never fails semantically; with no injected
failure it succeeds. -/
theorem issue_match_ok (p : String) (c : Conn)
    (hinj : c.fail.headD false = false) :
    issue (Query.matchFunctionsOfFile p) c =
      (.ok (.rows (functionsOfFile c.store p)),
        ⟨c.store, c.log ++ [Query.matchFunctionsOfFile p], c.fail.tail⟩) := by
  have h' : c.fail.head?.getD false = false := by
    cases hf : c.fail with
    | nil => rfl
    | cons b t => rw [hf] at hinj; exact hinj
  unfold issue applyQuery
  simp [h']

/-- `MERGE (f:File {path})` never fails semantically; with no injected
failure it succeeds. -/
theorem issue_mergeFile_ok (p : String) (c : Conn)
    (hinj : c.fail.headD false = false) :
    ∃ c2, issue (Query.mergeFile p) c = (.ok .unit, c2)
      ∧ c2.fail = c.fail.tail := by
  have h' : c.fail.head?.getD false = false := by
    cases hf : c.fail with
    | nil => rfl
    | cons b t => rw [hf] at hinj; exact hinj
  unfold issue applyQuery
  by_cases hp : p ∈ c.store.files
  · refine ⟨⟨c.store, c.log ++ [Query.mergeFile p], c.fail.tail⟩, ?_, rfl⟩
    simp [h', hp]
  · refine ⟨⟨{ c.store with files := c.store.files ++ [p] },
      c.log ++ [Query.mergeFile p], c.fail.tail⟩, ?_, rfl⟩
    simp [h', hp]

/-- Once the first two queries of the incremental update have not been
injected to fail, `stage1` cannot end thrown: the remaining work absorbs
every store failure. -/
theorem stage1_no_thrown (env : Ctx) (fuel : Nat) (c : Conn)
    (h1 : c.fail.headD false = false) (h2 : c.fail.tail.headD false = false) :
    ∀ c1, stage1 env fuel c ≠ some (.thrown c1) := by
  intro c1 hcontra
  unfold stage1 at hcontra
  dsimp only at hcontra
  rw [issue_match_ok (quoteEscape env.sf.fileName) c h1] at hcontra
  dsimp only at hcontra
  obtain ⟨c2, hq2, _⟩ := issue_mergeFile_ok (quoteEscape env.sf.fileName)
    ⟨c.store, c.log ++ [Query.matchFunctionsOfFile
      (quoteEscape env.sf.fileName)], c.fail.tail⟩ h2
  rw [hq2] at hcontra
  dsimp only at hcontra
  cases hv : parseAndUpdateKuzu env fuel c2 with
  | none => rw [hv] at hcontra; cases hcontra
  | some c3 => rw [hv] at hcontra; cases hcontra

/-- C7 amended: failure handling in the incremental update is asymmetric.
A failure of the very first query (the existing-functions fetch) aborts the
whole update — thrown immediately, store untouched, no pruning; but once the
first two queries (the fetch and the File merge) have not failed, the update
can never end thrown: every later store failure (function/edge merges inside
the synchronizer, pruning deletes) is logged and skipped, so the pruning
pass is always reached. -/
theorem update_failure_abort_boundary :
    (∀ (env : Ctx) (fuel : Nat) (c : Conn) (bs : List Bool),
      c.fail = true :: bs →
      updateKuzuDatabase env fuel c = some (.thrown ⟨c.store,
        c.log ++ [Query.matchFunctionsOfFile (quoteEscape env.sf.fileName)],
        bs⟩))
    ∧ (∀ (env : Ctx) (fuel : Nat) (c : Conn),
      c.fail.headD false = false → c.fail.tail.headD false = false →
      ∀ c1, updateKuzuDatabase env fuel c ≠ some (.thrown c1)) := by
  constructor
  · intro env fuel c bs hf
    rcases c with ⟨s, l, f⟩
    simp only at hf
    subst hf
    simp [updateKuzuDatabase, stage1, issue]
  · intro env fuel c hh1 hh2 c1 hcontra
    unfold updateKuzuDatabase at hcontra
    cases hs : stage1 env fuel c with
    | none => rw [hs] at hcontra; cases hcontra
    | some st =>
      rw [hs] at hcontra
      cases st with
      | thrown cT =>
        cases hcontra
        exact stage1_no_thrown env fuel c hh1 hh2 c1 hs
      | ok rows c3 => cases hcontra

/-- Witness for `update_failure_abort_boundary`: a first-query failure on
the populated `a.ts` store aborts immediately, and the same update with no
injected failures never ends thrown. -/
theorem update_failure_abort_boundary_witness :
    updateKuzuDatabase aEnvRenamed 20 ⟨aStore, [], [true]⟩ =
      some (.thrown ⟨aStore, [Query.matchFunctionsOfFile
        (quoteEscape aEnvRenamed.sf.fileName)], []⟩) ∧
    updateKuzuDatabase aEnvRenamed 20 aConn ≠
      some (.thrown aConn) :=
  ⟨update_failure_abort_boundary.1 aEnvRenamed 20 ⟨aStore, [], [true]⟩ []
      rfl,
    update_failure_abort_boundary.2 aEnvRenamed 20 aConn rfl rfl aConn⟩

/-! ## Pruning correctness of the incremental update -/

/-- No Function row, HasFunction edge or Calls edge mentions id `i`. -/
def absent (s : Store) (i : String) : Prop :=
  (∀ r ∈ s.funcs, r.id ≠ i) ∧ (∀ e ∈ s.hasFunction, e.2 ≠ i) ∧
    (∀ e ∈ s.calls, e.1 ≠ i ∧ e.2 ≠ i)

theorem absent_sub {s t : Store} {i : String} (hsub : StoreSub t s)
    (h : absent s i) : absent t i :=
  ⟨fun r hr => h.1 r (hsub.2.1 hr),
    fun e he => h.2.1 e (hsub.2.2.1 he),
    fun e he => h.2.2 e (hsub.2.2.2 he)⟩

theorem issue_nofail (q : Query) (c : Conn) (hfail : c.fail = [])
    (s' : Store) (r : QueryRes) (happ : applyQuery q c.store = .ok (s', r)) :
    issue q c = (.ok r, ⟨s', c.log ++ [q], []⟩) := by
  unfold issue
  simp [hfail, happ]

theorem applyQuery_deleteCalls (i : String) (s : Store) :
    applyQuery (Query.deleteCallsOf i) s =
      .ok ((if s.funcs.any (fun r => r.id = i)
        then { s with calls := s.calls.filter (fun e => e.1 ≠ i ∧ e.2 ≠ i) }
        else s), .unit) := by
  unfold applyQuery
  by_cases h : s.funcs.any (fun r => r.id = i) <;> simp [h]

/-- Each `r` returned by the existing-functions query is a stored row linked
to `path` by a HasFunction edge. -/
theorem functionsOfFile_mem (s : Store) (path : String) (r : FunctionRow)
    (h : r ∈ functionsOfFile s path) :
    r ∈ s.funcs ∧ (path, r.id) ∈ s.hasFunction ∧ path ∈ s.files := by
  unfold functionsOfFile at h
  split at h
  · obtain ⟨e, he, hsome⟩ := List.mem_filterMap.mp h
    split at hsome
    · rename_i hep
      have hmem := List.mem_of_find?_eq_some hsome
      have hid := List.find?_some hsome
      simp only [decide_eq_true_eq] at hid
      refine ⟨hmem, ?_, by assumption⟩
      have : e = (path, r.id) := by
        rcases e with ⟨e1, e2⟩
        simp only at hep hid
        rw [hep, hid]
      rw [← this]
      exact he
    · cases hsome
  · cases h

theorem issue_store_cases (q : Query) (c : Conn) :
    ((issue q c).2).store = c.store ∨
    ∃ r, applyQuery q c.store = .ok (((issue q c).2).store, r) := by
  unfold issue
  dsimp only
  split
  · exact Or.inl rfl
  · split
    · exact Or.inl rfl
    · rename_i s r heq
      exact Or.inr ⟨r, by rw [heq]⟩

theorem applyQuery_deleteFunction_cases (p i : String) (s : Store) :
    applyQuery (Query.deleteFunctionOfFile p i) s = .error () ∨
    applyQuery (Query.deleteFunctionOfFile p i) s = .ok (s, .unit) ∨
    applyQuery (Query.deleteFunctionOfFile p i) s =
      .ok ({ s with
        hasFunction := s.hasFunction.filter (fun e => e ≠ (p, i)),
        funcs := s.funcs.filter (fun r => r.id ≠ i) }, .unit) := by
  simp only [applyQuery]
  split
  · split
    · exact Or.inl rfl
    · exact Or.inr (Or.inr rfl)
  · exact Or.inr (Or.inl rfl)

/-- One pruning delete (either of the two queries) only shrinks the store,
never touches the File rows, and consumes one failure flag. -/
theorem issue_delete_step (q : Query) (c : Conn)
    (hq : (∃ i, q = Query.deleteCallsOf i)
      ∨ ∃ p i, q = Query.deleteFunctionOfFile p i) :
    StoreSub ((issue q c).2).store c.store ∧
    ((issue q c).2).store.files = c.store.files ∧
    ((issue q c).2).fail = c.fail.tail := by
  refine ⟨?_, ?_, issue_snd_fail q c⟩
  · rcases issue_store_cases q c with h | ⟨r, h⟩
    · rw [h]; exact storeSub_refl _
    · rcases hq with ⟨i, rfl⟩ | ⟨p, i, rfl⟩
      · rw [applyQuery_deleteCalls] at h
        have := (Except.ok.injEq _ _).mp h
        have hs := congrArg Prod.fst this
        dsimp only at hs
        split at hs
        · rw [← hs]
          exact ⟨List.Subset.refl _, List.Subset.refl _, List.Subset.refl _,
            (List.filter_sublist _).subset⟩
        · rw [← hs]; exact storeSub_refl _
      · rcases applyQuery_deleteFunction_cases p i c.store with h2 | h2 | h2
        · rw [h2] at h; cases h
        · rw [h2] at h
          have := (Except.ok.injEq _ _).mp h
          have hs := congrArg Prod.fst this
          dsimp only at hs
          rw [← hs]; exact storeSub_refl _
        · rw [h2] at h
          have := (Except.ok.injEq _ _).mp h
          have hs := congrArg Prod.fst this
          dsimp only at hs
          rw [← hs]
          exact ⟨List.Subset.refl _, (List.filter_sublist _).subset,
            (List.filter_sublist _).subset, List.Subset.refl _⟩
  · rcases issue_store_cases q c with h | ⟨r, h⟩
    · rw [h]
    · rcases hq with ⟨i, rfl⟩ | ⟨p, i, rfl⟩
      · rw [applyQuery_deleteCalls] at h
        have := (Except.ok.injEq _ _).mp h
        have hs := congrArg Prod.fst this
        dsimp only at hs
        split at hs
        · rw [← hs]
        · rw [← hs]
      · rcases applyQuery_deleteFunction_cases p i c.store with h2 | h2 | h2
        · rw [h2] at h; cases h
        · rw [h2] at h
          have := (Except.ok.injEq _ _).mp h
          have hs := congrArg Prod.fst this
          dsimp only at hs
          rw [← hs]
        · rw [h2] at h
          have := (Except.ok.injEq _ _).mp h
          have hs := congrArg Prod.fst this
          dsimp only at hs
          rw [← hs]

/-- The pruning loop only shrinks the store, keeps the File rows, and keeps
an empty failure stream empty. -/
theorem prune_sub (fp : String) (ids : List String) :
    ∀ (rows : List FunctionRow) (c : Conn),
    StoreSub (pruneLoop fp ids rows c).store c.store ∧
    (pruneLoop fp ids rows c).store.files = c.store.files ∧
    (c.fail = [] → (pruneLoop fp ids rows c).fail = [])
  | [], c => ⟨storeSub_refl _, rfl, fun h => h⟩
  | r0 :: rest, c => by
    unfold pruneLoop
    by_cases hin : r0.id ∈ ids
    · rw [if_pos hin]
      exact prune_sub fp ids rest c
    · rw [if_neg hin]
      have s1 := issue_delete_step (Query.deleteCallsOf (quoteEscape r0.id)) c
        (Or.inl ⟨_, rfl⟩)
      have s2 := issue_delete_step (Query.deleteFunctionOfFile fp
        (quoteEscape r0.id)) ((issue (Query.deleteCallsOf
          (quoteEscape r0.id)) c).2) (Or.inr ⟨_, _, rfl⟩)
      have s3 := prune_sub fp ids rest ((issue (Query.deleteFunctionOfFile fp
        (quoteEscape r0.id)) ((issue (Query.deleteCallsOf
          (quoteEscape r0.id)) c).2)).2)
      refine ⟨storeSub_trans (storeSub_trans s3.1 s2.1) s1.1, ?_, ?_⟩
      · rw [s3.2.1, s2.2.1, s1.2.1]
      · intro h
        apply s3.2.2
        rw [s2.2.2, s1.2.2, h]
        rfl

/-- Rows whose id is among the new ids survive the pruning loop (the loop
only deletes ids of listed rows that are not among the new ids). -/
theorem prune_survive (fp : String) (ids : List String) :
    ∀ (rows : List FunctionRow) (c : Conn) (r : FunctionRow),
    (∀ r' ∈ rows, quoteEscape r'.id = r'.id) →
    r ∈ c.store.funcs → r.id ∈ ids →
    r ∈ (pruneLoop fp ids rows c).store.funcs
  | [], _, r, _, hr, _ => hr
  | r0 :: rest, c, r, hq, hr, hid => by
    unfold pruneLoop
    have hqrest : ∀ r' ∈ rest, quoteEscape r'.id = r'.id :=
      fun r' h => hq r' (List.mem_cons_of_mem r0 h)
    by_cases hin : r0.id ∈ ids
    · rw [if_pos hin]
      exact prune_survive fp ids rest c r hqrest hr hid
    · rw [if_neg hin]
      apply prune_survive fp ids rest _ r hqrest _ hid
      have hne : r.id ≠ r0.id := fun hcontra => hin (hcontra ▸ hid)
      have hq0 : quoteEscape r0.id = r0.id := hq r0 (List.mem_cons_self r0 rest)
      have step1 : r ∈ ((issue (Query.deleteCallsOf (quoteEscape r0.id))
          c).2).store.funcs := by
        rcases issue_store_cases (Query.deleteCallsOf (quoteEscape r0.id)) c
          with h | ⟨rr, h⟩
        · rw [h]; exact hr
        · rw [applyQuery_deleteCalls] at h
          have := (Except.ok.injEq _ _).mp h
          have hs := congrArg Prod.fst this
          dsimp only at hs
          split at hs <;> rw [← hs] <;> exact hr
      rcases issue_store_cases (Query.deleteFunctionOfFile fp
        (quoteEscape r0.id)) ((issue (Query.deleteCallsOf
          (quoteEscape r0.id)) c).2) with h | ⟨rr, h⟩
      · rw [h]; exact step1
      · rcases applyQuery_deleteFunction_cases fp (quoteEscape r0.id) _
          with h2 | h2 | h2
        · rw [h2] at h; cases h
        · rw [h2] at h
          have := (Except.ok.injEq _ _).mp h
          have hs := congrArg Prod.fst this
          dsimp only at hs
          rw [← hs]; exact step1
        · rw [h2] at h
          have := (Except.ok.injEq _ _).mp h
          have hs := congrArg Prod.fst this
          dsimp only at hs
          rw [← hs]
          apply List.mem_filter.mpr
          refine ⟨step1, ?_⟩
          simp only [decide_eq_true_eq]
          rw [hq0]
          exact hne

theorem applyQuery_deleteCalls_pos (i : String) (s : Store)
    (h : s.funcs.any (fun r => r.id = i) = true) :
    applyQuery (Query.deleteCallsOf i) s =
      .ok ({ s with calls := s.calls.filter (fun e => e.1 ≠ i ∧ e.2 ≠ i) },
        .unit) := by
  simp only [applyQuery]
  rw [if_pos h]

theorem applyQuery_deleteCalls_neg (i : String) (s : Store)
    (h : s.funcs.any (fun r => r.id = i) = false) :
    applyQuery (Query.deleteCallsOf i) s = .ok (s, .unit) := by
  simp only [applyQuery]
  rw [if_neg (by simp [h])]

theorem applyQuery_deleteFunction_noop (p i : String) (s : Store)
    (h : (p, i) ∉ s.hasFunction) :
    applyQuery (Query.deleteFunctionOfFile p i) s = .ok (s, .unit) := by
  simp only [applyQuery]
  rw [if_neg (fun hc => h hc.2.1)]

theorem applyQuery_deleteFunction_pos (p i : String) (s : Store)
    (h1 : p ∈ s.files) (h2 : (p, i) ∈ s.hasFunction)
    (h3 : s.funcs.any (fun r => r.id = i) = true)
    (hno : (s.hasFunction.filter (fun e => e ≠ (p, i))).any
      (fun e => e.2 = i) = false)
    (hnc : s.calls.any (fun e => e.1 = i ∨ e.2 = i) = false) :
    applyQuery (Query.deleteFunctionOfFile p i) s =
      .ok ({ s with
        hasFunction := s.hasFunction.filter (fun e => e ≠ (p, i)),
        funcs := s.funcs.filter (fun r => r.id ≠ i) }, .unit) := by
  simp only [applyQuery]
  rw [if_pos ⟨h1, h2, h3⟩]
  rw [if_neg ?hneg]
  case hneg =>
    intro hc
    rcases hc with hx | hx
    · rw [hno] at hx
      exact Bool.false_ne_true hx
    · rw [hnc] at hx
      exact Bool.false_ne_true hx

/-- The store after `MATCH (func {id: i})-[r:Calls]-() DELETE r` fires. -/
def callsPruned (s : Store) (i : String) : Store :=
  { s with calls := s.calls.filter (fun e => e.1 ≠ i ∧ e.2 ≠ i) }

/-- The store after `MATCH (f:File {path: p})-[r:HasFunction]->(func {id: i})
DELETE r, func` fires. -/
def funcPruned (s : Store) (p i : String) : Store :=
  { s with
    hasFunction := s.hasFunction.filter (fun e => e ≠ (p, i)),
    funcs := s.funcs.filter (fun r => r.id ≠ i) }

/-- Pruning removes stale rows completely.  Given the per-file invariants —
no injected failures, the file node present, quote-invariant ids, every
HasFunction edge into a stale id coming from this file, and every stale row
either already absent or properly linked — after the loop no Function row,
HasFunction edge or Calls edge mentions a stale id. -/
theorem prune_removes (fp : String) (ids : List String) :
    ∀ (rows : List FunctionRow) (c : Conn),
    c.fail = [] →
    fp ∈ c.store.files →
    (∀ r' ∈ rows, quoteEscape r'.id = r'.id) →
    (∀ e ∈ c.store.hasFunction,
      (∃ r' ∈ rows, r'.id = e.2 ∧ r'.id ∉ ids) → e.1 = fp) →
    (∀ r' ∈ rows, r'.id ∉ ids →
      absent c.store r'.id ∨
        ((fp, r'.id) ∈ c.store.hasFunction ∧
          ∃ r2 ∈ c.store.funcs, r2.id = r'.id)) →
    ∀ r ∈ rows, r.id ∉ ids → absent (pruneLoop fp ids rows c).store r.id
  | [], _, _, _, _, _, _ => fun r hr _ => absurd hr (List.not_mem_nil r)
  | r0 :: rest, c, hfail, hfp, hq, hedge, hlink => by
    intro r hrmem hrid
    have hq0 : quoteEscape r0.id = r0.id := hq r0 (List.mem_cons_self _ _)
    have hqrest : ∀ r' ∈ rest, quoteEscape r'.id = r'.id :=
      fun r' h => hq r' (List.mem_cons_of_mem r0 h)
    have hedgerest : ∀ (c' : Conn), (∀ e ∈ c'.store.hasFunction,
        e ∈ c.store.hasFunction) →
        ∀ e ∈ c'.store.hasFunction,
        (∃ r' ∈ rest, r'.id = e.2 ∧ r'.id ∉ ids) → e.1 = fp := by
      intro c' hsub e he hex
      obtain ⟨r', hr', hcond⟩ := hex
      exact hedge e (hsub e he) ⟨r', List.mem_cons_of_mem r0 hr', hcond⟩
    unfold pruneLoop
    by_cases hin : r0.id ∈ ids
    · rw [if_pos hin]
      rcases List.mem_cons.mp hrmem with rfl | hmem
      · exact absurd hin hrid
      · exact prune_removes fp ids rest c hfail hfp hqrest
          (hedgerest c (fun e he => he))
          (fun r' h hs => hlink r' (List.mem_cons_of_mem r0 h) hs)
          r hmem hrid
    · rw [if_neg hin]
      dsimp only
      rw [hq0]
      rcases hlink r0 (List.mem_cons_self _ _) hin with habs |
        ⟨hhf, r2, hr2, hr2id⟩
      · -- the stale id is already absent: both deletes are no-ops
        have hany : c.store.funcs.any (fun rr => rr.id = r0.id) = false := by
          rw [List.any_eq_false]
          intro x hx
          simp only [decide_eq_true_eq]
          exact habs.1 x hx
        have hc1 := issue_nofail (Query.deleteCallsOf r0.id) c hfail
          c.store .unit (applyQuery_deleteCalls_neg r0.id c.store hany)
        rw [hc1]
        dsimp only
        have hnfp : (fp, r0.id) ∉ c.store.hasFunction :=
          fun hmem => habs.2.1 _ hmem rfl
        have hc2 := issue_nofail (Query.deleteFunctionOfFile fp r0.id)
          ⟨c.store, c.log ++ [Query.deleteCallsOf r0.id], []⟩ rfl
          c.store .unit (applyQuery_deleteFunction_noop fp r0.id c.store hnfp)
        rw [hc2]
        dsimp only
        rcases List.mem_cons.mp hrmem with rfl | hmem
        · exact absent_sub (prune_sub fp ids rest _).1 habs
        · exact prune_removes fp ids rest
            ⟨c.store, (c.log ++ [Query.deleteCallsOf r0.id])
              ++ [Query.deleteFunctionOfFile fp r0.id], []⟩ rfl hfp hqrest
            (hedgerest ⟨c.store, (c.log ++ [Query.deleteCallsOf r0.id])
              ++ [Query.deleteFunctionOfFile fp r0.id], []⟩ (fun e he => he))
            (fun r' h hs => hlink r' (List.mem_cons_of_mem r0 h) hs)
            r hmem hrid
      · -- the stale row is linked: both deletes fire and remove everything
        have hany : c.store.funcs.any (fun rr => rr.id = r0.id) = true := by
          rw [List.any_eq_true]
          exact ⟨r2, hr2, by simp [hr2id]⟩
        have hc1 := issue_nofail (Query.deleteCallsOf r0.id) c hfail
          (callsPruned c.store r0.id) .unit
          (applyQuery_deleteCalls_pos r0.id c.store hany)
        rw [hc1]
        dsimp only
        have hno : ((callsPruned c.store r0.id).hasFunction.filter
            (fun e => e ≠ (fp, r0.id))).any (fun e => e.2 = r0.id)
            = false := by
          rw [List.any_eq_false]
          intro e he
          simp only [decide_eq_true_eq]
          intro he2
          have hmf := List.mem_filter.mp he
          have hne : e ≠ (fp, r0.id) := by simpa using hmf.2
          apply hne
          have he1 : e.1 = fp := hedge e hmf.1
            ⟨r0, List.mem_cons_self _ _, he2.symm, hin⟩
          rcases e with ⟨e1, e2⟩
          simp only at he1 he2
          rw [he1, he2]
        have hnc : (callsPruned c.store r0.id).calls.any
            (fun e => e.1 = r0.id ∨ e.2 = r0.id) = false := by
          rw [List.any_eq_false]
          intro e he
          have hmf := List.mem_filter.mp he
          have hcond : e.1 ≠ r0.id ∧ e.2 ≠ r0.id := by simpa using hmf.2
          simp only [decide_eq_true_eq]
          intro hcontra
          rcases hcontra with hx | hx
          · exact hcond.1 hx
          · exact hcond.2 hx
        have hc2 := issue_nofail (Query.deleteFunctionOfFile fp r0.id)
          ⟨callsPruned c.store r0.id,
            c.log ++ [Query.deleteCallsOf r0.id], []⟩ rfl
          (funcPruned (callsPruned c.store r0.id) fp r0.id) .unit
          (applyQuery_deleteFunction_pos fp r0.id (callsPruned c.store r0.id)
            hfp hhf hany hno hnc)
        rw [hc2]
        dsimp only
        have habs2 : absent (funcPruned (callsPruned c.store r0.id) fp r0.id)
            r0.id := by
          refine ⟨?_, ?_, ?_⟩
          · intro rr hrr
            have hmf := List.mem_filter.mp hrr
            simpa using hmf.2
          · intro e he
            have hmf := List.mem_filter.mp he
            intro he2
            have hne : e ≠ (fp, r0.id) := by simpa using hmf.2
            apply hne
            have he1 : e.1 = fp := hedge e hmf.1
              ⟨r0, List.mem_cons_self _ _, he2.symm, hin⟩
            rcases e with ⟨e1, e2⟩
            simp only at he1 he2
            rw [he1, he2]
          · intro e he
            have hmf := List.mem_filter.mp he
            have hcond : e.1 ≠ r0.id ∧ e.2 ≠ r0.id := by simpa using hmf.2
            exact hcond
        have hsub2 : StoreSub (funcPruned (callsPruned c.store r0.id) fp
            r0.id) c.store :=
          ⟨List.Subset.refl _, (List.filter_sublist _).subset,
            (List.filter_sublist _).subset, (List.filter_sublist _).subset⟩
        rcases List.mem_cons.mp hrmem with rfl | hmem
        · exact absent_sub (prune_sub fp ids rest _).1 habs2
        · refine prune_removes fp ids rest
            ⟨funcPruned (callsPruned c.store r0.id) fp r0.id,
              (c.log ++ [Query.deleteCallsOf r0.id])
                ++ [Query.deleteFunctionOfFile fp r0.id], []⟩ rfl hfp hqrest
            (hedgerest ⟨funcPruned (callsPruned c.store r0.id) fp r0.id,
              (c.log ++ [Query.deleteCallsOf r0.id])
                ++ [Query.deleteFunctionOfFile fp r0.id], []⟩
              (fun e he => (hsub2.2.2.1 he))) ?_ r hmem hrid
          intro r' h hs
          rcases hlink r' (List.mem_cons_of_mem r0 h) hs with ha |
            ⟨hf', r2', hr2', hid'⟩
          · exact Or.inl (absent_sub hsub2 ha)
          · by_cases hre : r'.id = r0.id
            · exact Or.inl (by rw [hre]; exact habs2)
            · refine Or.inr ⟨?_, r2', ?_, hid'⟩
              · apply List.mem_filter.mpr
                refine ⟨hf', ?_⟩
                simp only [decide_eq_true_eq]
                intro hcontra
                apply hre
                have := congrArg Prod.snd hcontra
                simpa using this
              · apply List.mem_filter.mpr
                refine ⟨hr2', ?_⟩
                simp only [decide_eq_true_eq]
                rw [hid']
                exact hre

/-- What a successfully completed `stage1` guarantees: the returned rows are
the pre-state's functions of the file, no injected failure remains, the file
node exists, and the store has only grown. -/
theorem stage1_ok_spec (env : Ctx) (fuel : Nat) (c0 : Conn)
    (hfail : c0.fail = []) (rows : List FunctionRow) (cMid : Conn)
    (h : stage1 env fuel c0 = some (.ok rows cMid)) :
    rows = functionsOfFile c0.store (quoteEscape env.sf.fileName) ∧
    cMid.fail = [] ∧
    quoteEscape env.sf.fileName ∈ cMid.store.files ∧
    StoreSub c0.store cMid.store := by
  unfold stage1 at h
  dsimp only at h
  have h1 : c0.fail.headD false = false := by rw [hfail]; rfl
  rw [issue_match_ok (quoteEscape env.sf.fileName) c0 h1] at h
  dsimp only at h
  rw [hfail] at h
  by_cases hp : quoteEscape env.sf.fileName ∈ c0.store.files
  · have happ : applyQuery (Query.mergeFile (quoteEscape env.sf.fileName))
        c0.store = .ok (c0.store, .unit) := by
      simp only [applyQuery]
      rw [if_pos hp]
    have hc2 := issue_nofail (Query.mergeFile (quoteEscape env.sf.fileName))
      ⟨c0.store, c0.log ++ [Query.matchFunctionsOfFile
        (quoteEscape env.sf.fileName)], List.tail []⟩ rfl c0.store .unit happ
    rw [hc2] at h
    dsimp only at h
    cases hv : parseAndUpdateKuzu env fuel
      ⟨c0.store, (c0.log ++ [Query.matchFunctionsOfFile
        (quoteEscape env.sf.fileName)]) ++ [Query.mergeFile
        (quoteEscape env.sf.fileName)], []⟩ with
    | none => rw [hv] at h; cases h
    | some c3 =>
      rw [hv] at h
      simp only [Option.some.injEq, Stage1.ok.injEq, QueryRes.rowsD] at h
      obtain ⟨hrows, hcmid⟩ := h
      subst hcmid
      have hpar := visitF_par env fuel [] (.inl env.sf.root) _ c3 hv
      refine ⟨hrows.symm, hpar.2.1 rfl, ?_, ?_⟩
      · exact hpar.1.1 hp
      · exact hpar.1
  · have happ : applyQuery (Query.mergeFile (quoteEscape env.sf.fileName))
        c0.store = .ok ({ c0.store with files := c0.store.files
          ++ [quoteEscape env.sf.fileName] }, .unit) := by
      simp only [applyQuery]
      rw [if_neg hp]
    have hc2 := issue_nofail (Query.mergeFile (quoteEscape env.sf.fileName))
      ⟨c0.store, c0.log ++ [Query.matchFunctionsOfFile
        (quoteEscape env.sf.fileName)], List.tail []⟩ rfl _ .unit happ
    rw [hc2] at h
    dsimp only at h
    cases hv : parseAndUpdateKuzu env fuel
      ⟨{ c0.store with files := c0.store.files
          ++ [quoteEscape env.sf.fileName] },
        (c0.log ++ [Query.matchFunctionsOfFile
          (quoteEscape env.sf.fileName)]) ++ [Query.mergeFile
          (quoteEscape env.sf.fileName)], []⟩ with
    | none => rw [hv] at h; cases h
    | some c3 =>
      rw [hv] at h
      simp only [Option.some.injEq, Stage1.ok.injEq, QueryRes.rowsD] at h
      obtain ⟨hrows, hcmid⟩ := h
      subst hcmid
      have hpar := visitF_par env fuel [] (.inl env.sf.root) _ c3 hv
      refine ⟨hrows.symm, hpar.2.1 rfl, ?_, ?_⟩
      · apply hpar.1.1
        simp
      · refine (storeSub_trans ?_ hpar.1)
        exact ⟨List.subset_append_left _ _, List.Subset.refl _,
          List.Subset.refl _, List.Subset.refl _⟩

/-- C2 amended: for every file, store state and program (with a sanitized
file path — quote doubling is the identity on it and on the stored ids —
no injected store failures, and HasFunction edges into stale ids only from
this file, as computed by the parse stage): after a completed incremental
update, (a) every Function previously attributed to the file via
HasFunction whose id does not occur as `<filePath>:<pos>` of a
function-like node of the new parse is removed together with its
HasFunction edge and every Calls edge in which it appears as source or
target; and (b) every Function row present before the update whose id does
occur in the new parse still exists after the update.  (The unamended
second half — every id of the new parse exists afterwards — is refuted by
`update_misses_nested_function_after_id_conflict`.) -/
theorem update_prunes_stale_and_keeps_surviving
    (env : Ctx) (fuel : Nat) (c0 c1 : Conn)
    (hfail : c0.fail = [])
    (hfp : quoteEscape env.sf.fileName = env.sf.fileName)
    (hids : ∀ r ∈ functionsOfFile c0.store env.sf.fileName,
      quoteEscape r.id = r.id)
    (hmid : ∀ rows cMid, stage1 env fuel c0 = some (.ok rows cMid) →
      ∀ e ∈ cMid.store.hasFunction,
        (∃ r' ∈ functionsOfFile c0.store env.sf.fileName, r'.id = e.2 ∧
          r'.id ∉ collectFunctionIds env.sf.fileName env.sf.root) →
        e.1 = env.sf.fileName)
    (hrun : updateKuzuDatabase env fuel c0 = some (.ok c1)) :
    (∀ r ∈ functionsOfFile c0.store env.sf.fileName,
      r.id ∉ collectFunctionIds env.sf.fileName env.sf.root →
      absent c1.store r.id)
    ∧ (∀ r ∈ c0.store.funcs,
      r.id ∈ collectFunctionIds env.sf.fileName env.sf.root →
      r ∈ c1.store.funcs) := by
  unfold updateKuzuDatabase at hrun
  cases hs : stage1 env fuel c0 with
  | none => rw [hs] at hrun; cases hrun
  | some st =>
    rw [hs] at hrun
    cases st with
    | thrown cT => cases hrun
    | ok rows cMid =>
      simp only [Option.some.injEq, Outcome.ok.injEq] at hrun
      obtain ⟨hrows, hmfail, hmfp, hmsub⟩ :=
        stage1_ok_spec env fuel c0 hfail rows cMid hs
      rw [hfp] at hrows hmfp
      have hqrows : ∀ r' ∈ rows, quoteEscape r'.id = r'.id := by
        rw [hrows]
        exact hids
      constructor
      · intro r hr hstale
        rw [← hrun, hfp]
        apply prune_removes env.sf.fileName
          (collectFunctionIds env.sf.fileName env.sf.root) rows cMid
          hmfail hmfp hqrows
        · intro e he hex
          apply hmid rows cMid hs e he
          rw [hrows] at hex
          exact hex
        · intro r' hr' _
          rw [hrows] at hr'
          obtain ⟨hrf, hrhf, _⟩ := functionsOfFile_mem c0.store
            env.sf.fileName r' hr'
          exact Or.inr ⟨hmsub.2.2.1 hrhf, r', hmsub.2.1 hrf, rfl⟩
        · rw [hrows]
          exact hr
        · exact hstale
      · intro r hr hnew
        rw [← hrun, hfp]
        exact prune_survive env.sf.fileName
          (collectFunctionIds env.sf.fileName env.sf.root) rows cMid r
          hqrows (hmsub.2.1 hr) hnew

/-- Witness scenario for the pruning theorem: `a.ts` holds functions
`A = a.ts:0` and `B = a.ts:50` with a Calls edge `B → A`; the file is
re-synchronized from a parse containing only the function at offset 0. -/
def wFunc : TsNode :=
  .mk ⟨.functionDeclaration, 0, 0, 9, "a.ts", some "f", 1⟩ .nil .nil

def wRoot : TsNode :=
  .mk ⟨.other, 0, 0, 10, "a.ts", none, 0⟩ .nil (.cons wFunc .nil)

def wSf : SrcFile := ⟨"a.ts", false, [0], wRoot⟩

def wEnv : Ctx := ⟨⟨[wSf], trivialChecker⟩, wSf⟩

def wRowA : FunctionRow := ⟨"a.ts:0", "f", 1, 1, 1, 10⟩

def wRowB : FunctionRow := ⟨"a.ts:50", "g", 3, 1, 3, 10⟩

def wConn0 : Conn :=
  ⟨⟨["a.ts"], [wRowA, wRowB],
    [("a.ts", "a.ts:0"), ("a.ts", "a.ts:50")],
    [("a.ts:50", "a.ts:0")]⟩, [], []⟩

def wMid : Conn :=
  ⟨⟨["a.ts"], [wRowA, wRowB],
    [("a.ts", "a.ts:0"), ("a.ts", "a.ts:50")], [("a.ts:50", "a.ts:0")]⟩,
    [Query.matchFunctionsOfFile "a.ts", Query.mergeFile "a.ts",
      Query.mergeFunction wRowA, Query.mergeHasFunction "a.ts" "a.ts:0"],
    []⟩

def wFinal : Conn :=
  ⟨⟨["a.ts"], [wRowA], [("a.ts", "a.ts:0")], []⟩,
    [Query.matchFunctionsOfFile "a.ts", Query.mergeFile "a.ts",
      Query.mergeFunction wRowA, Query.mergeHasFunction "a.ts" "a.ts:0",
      Query.deleteCallsOf "a.ts:50",
      Query.deleteFunctionOfFile "a.ts" "a.ts:50"], []⟩

/-- Witness for `update_prunes_stale_and_keeps_surviving` at the `a.ts`
scenario: `B = a.ts:50` is removed with all its edges, `A = a.ts:0`
survives. -/
theorem update_prunes_stale_witness :
    (∀ r ∈ functionsOfFile wConn0.store wEnv.sf.fileName,
      r.id ∉ collectFunctionIds wEnv.sf.fileName wEnv.sf.root →
      absent wFinal.store r.id)
    ∧ (∀ r ∈ wConn0.store.funcs,
      r.id ∈ collectFunctionIds wEnv.sf.fileName wEnv.sf.root →
      r ∈ wFinal.store.funcs) :=
  update_prunes_stale_and_keeps_surviving wEnv 20 wConn0 wFinal rfl
    (by decide) (by decide)
    (by
      intro rows cMid h
      have hconc : stage1 wEnv 20 wConn0 =
          some (Stage1.ok [wRowA, wRowB] wMid) := by decide
      rw [hconc] at h
      injection h with h1
      injection h1 with h2 h3
      subst h3
      intro e he hex
      have hall : ∀ e ∈ wMid.store.hasFunction, e.1 = wEnv.sf.fileName := by
        decide
      exact hall e he)
    (by decide)

/-! ## The name-based fallback scan (claim C6) -/

/-- The Function rows of all fallback candidates: every function-like match
of the callee name in every non-declaration file other than the one being
parsed. -/
def fallbackRows (env : Ctx) (nm : String) : List FunctionRow :=
  (env.prog.files.filter (fun sf =>
    decide (sf.isDecl = false ∧ sf.fileName ≠ env.sf.fileName))).bind
    (fun sf => (findFunctionsWithNameInFile sf nm).map (functionRowOf sf))

theorem fallbackRows_mem (env : Ctx) (nm : String) (sf : SrcFile)
    (fn : TsNode) (hsf : sf ∈ env.prog.files) (hd : sf.isDecl = false)
    (hne : sf.fileName ≠ env.sf.fileName)
    (hfn : fn ∈ findFunctionsWithNameInFile sf nm) :
    functionRowOf sf fn ∈ fallbackRows env nm := by
  unfold fallbackRows
  apply List.mem_bind.mpr
  refine ⟨sf, ?_, List.mem_map_of_mem _ hfn⟩
  apply List.mem_filter.mpr
  exact ⟨hsf, by simp [hd, hne]⟩

mutual
theorem findFnsNode_funclike (nm : String) :
    ∀ (n : TsNode) (fn : TsNode), fn ∈ findFnsNode nm n →
      isFunctionLikeDeclaration fn = true
  | .mk d sub children, fn, h => by
    unfold findFnsNode at h
    rcases List.mem_append.mp h with h1 | h2
    · rcases List.mem_append.mp h1 with ha | hb
      · split at ha
        · rename_i hcond
          rcases List.mem_singleton.mp ha with rfl
          exact hcond.1
        · cases ha
      · split at hb
        · rename_i dn iv hsub
          split at hb
          · rename_i hcond
            rcases List.mem_singleton.mp hb with rfl
            exact hcond.2.2
          · cases hb
        · cases hb
    · exact findFnsList_funclike nm children fn h2
theorem findFnsList_funclike (nm : String) :
    ∀ (l : TsList) (fn : TsNode), fn ∈ findFnsList nm l →
      isFunctionLikeDeclaration fn = true
  | .nil, fn, h => absurd h (List.not_mem_nil fn)
  | .cons hd tl, fn, h => by
    unfold findFnsList at h
    rcases List.mem_append.mp h with h1 | h2
    · exact findFnsNode_funclike nm hd fn h1
    · exact findFnsList_funclike nm tl fn h2
end

theorem applyQuery_mergeHasFunction_spec (p i : String) (s : Store) :
    ∃ s', applyQuery (Query.mergeHasFunction p i) s = .ok (s', .unit) ∧
      s'.funcs = s.funcs ∧ s'.files = s.files ∧ s'.calls = s.calls ∧
      s.hasFunction ⊆ s'.hasFunction := by
  simp only [applyQuery]
  by_cases h1 : p ∈ s.files ∧ s.funcs.any (fun r => r.id = i) = true
  · rw [if_pos h1]
    by_cases h2 : (p, i) ∈ s.hasFunction
    · rw [if_pos h2]
      exact ⟨s, rfl, rfl, rfl, rfl, List.Subset.refl _⟩
    · rw [if_neg h2]
      exact ⟨_, rfl, rfl, rfl, rfl, List.subset_append_left _ _⟩
  · rw [if_neg h1]
    exact ⟨s, rfl, rfl, rfl, rfl, List.Subset.refl _⟩

/-- When no stored row conflicts with the candidate's id,
`createOrGetFunctionNode` succeeds and returns the candidate's escaped id;
the store gains at most the candidate row. -/
theorem createOrGet_success (sf : SrcFile) (fn : TsNode) (c : Conn)
    (hfl : isFunctionLikeDeclaration fn = true) (hfail : c.fail = [])
    (hcompat : ∀ r1 ∈ c.store.funcs, r1.id = (functionRowOf sf fn).id →
      r1 = functionRowOf sf fn) :
    ∃ c2, createOrGetFunctionNode sf fn c = (some (functionRowOf sf fn).id, c2)
      ∧ c2.fail = []
      ∧ functionRowOf sf fn ∈ c2.store.funcs
      ∧ StoreSub c.store c2.store
      ∧ (∀ r ∈ c2.store.funcs, r ∈ c.store.funcs ∨ r = functionRowOf sf fn) := by
  unfold createOrGetFunctionNode
  rw [if_pos hfl]
  have hrowid : (functionRowOf sf fn).id =
      escapeCypherString (mkId sf.fileName fn.pos) := rfl
  by_cases hrow : functionRowOf sf fn ∈ c.store.funcs
  · have happ1 : applyQuery (Query.mergeFunction (functionRowOf sf fn))
        c.store = .ok (c.store, .unit) := by
      simp only [applyQuery]
      rw [if_pos hrow]
    have hc1 := issue_nofail _ c hfail _ _ happ1
    rw [hc1]
    dsimp only
    obtain ⟨s', happ2, hsf', hsfl', hsc', hshf'⟩ :=
      applyQuery_mergeHasFunction_spec (escapeCypherString sf.fileName)
        (escapeCypherString (mkId sf.fileName fn.pos)) c.store
    have hc2 := issue_nofail _
      ⟨c.store, c.log ++ [Query.mergeFunction (functionRowOf sf fn)], []⟩ rfl
      _ _ happ2
    rw [hc2]
    dsimp only
    refine ⟨_, rfl, rfl, ?_, ?_, ?_⟩
    · rw [hsf']; exact hrow
    · exact ⟨by rw [hsfl']; exact List.Subset.refl _,
        by rw [hsf']; exact List.Subset.refl _, hshf',
        by rw [hsc']; exact List.Subset.refl _⟩
    · intro r hr
      rw [hsf'] at hr
      exact Or.inl hr
  · have hany : c.store.funcs.any
        (fun r0 => r0.id = (functionRowOf sf fn).id) = false := by
      rw [List.any_eq_false]
      intro x hx
      simp only [decide_eq_true_eq]
      intro hcontra
      exact hrow (hcompat x hx hcontra ▸ hx)
    have happ1 : applyQuery (Query.mergeFunction (functionRowOf sf fn))
        c.store = .ok ({ c.store with
          funcs := c.store.funcs ++ [functionRowOf sf fn] }, .unit) := by
      simp only [applyQuery]
      rw [if_neg hrow, if_neg (by simp [hany])]
    have hc1 := issue_nofail _ c hfail _ _ happ1
    rw [hc1]
    dsimp only
    obtain ⟨s', happ2, hsf', hsfl', hsc', hshf'⟩ :=
      applyQuery_mergeHasFunction_spec (escapeCypherString sf.fileName)
        (escapeCypherString (mkId sf.fileName fn.pos))
        { c.store with funcs := c.store.funcs ++ [functionRowOf sf fn] }
    have hc2 := issue_nofail _
      ⟨{ c.store with funcs := c.store.funcs ++ [functionRowOf sf fn] },
        c.log ++ [Query.mergeFunction (functionRowOf sf fn)], []⟩ rfl
      _ _ happ2
    rw [hc2]
    dsimp only
    refine ⟨_, rfl, rfl, ?_, ?_, ?_⟩
    · rw [hsf']
      simp
    · refine ⟨by rw [hsfl']; exact List.Subset.refl _, ?_, hshf',
        by rw [hsc']; exact List.Subset.refl _⟩
      rw [hsf']
      exact List.subset_append_left _ _
    · intro r hr
      rw [hsf'] at hr
      rcases List.mem_append.mp hr with h | h
      · exact Or.inl h
      · exact Or.inr (List.mem_singleton.mp h)

/-- When both endpoints exist, merging a Calls edge succeeds and the edge is
present afterwards; the Function rows are untouched. -/
theorem issue_mergeCalls_adds (a b : String) (c : Conn) (hfail : c.fail = [])
    (ha : ∃ r ∈ c.store.funcs, r.id = a) (hb : ∃ r ∈ c.store.funcs, r.id = b) :
    ∃ c2, issue (Query.mergeCalls a b) c = (.ok .unit, c2) ∧ c2.fail = []
      ∧ (a, b) ∈ c2.store.calls ∧ StoreSub c.store c2.store
      ∧ c2.store.funcs = c.store.funcs := by
  have hcond : c.store.funcs.any (fun r => r.id = a) = true
      ∧ c.store.funcs.any (fun r => r.id = b) = true := by
    obtain ⟨ra, hra, hida⟩ := ha
    obtain ⟨rb, hrb, hidb⟩ := hb
    constructor
    · rw [List.any_eq_true]; exact ⟨ra, hra, by simp [hida]⟩
    · rw [List.any_eq_true]; exact ⟨rb, hrb, by simp [hidb]⟩
  by_cases hmem : (a, b) ∈ c.store.calls
  · have happ : applyQuery (Query.mergeCalls a b) c.store =
        .ok (c.store, .unit) := by
      simp only [applyQuery]
      rw [if_pos hcond, if_pos hmem]
    exact ⟨_, issue_nofail _ c hfail _ _ happ, rfl, hmem, storeSub_refl _, rfl⟩
  · have happ : applyQuery (Query.mergeCalls a b) c.store =
        .ok ({ c.store with calls := c.store.calls ++ [(a, b)] }, .unit) := by
      simp only [applyQuery]
      rw [if_pos hcond, if_neg hmem]
    refine ⟨_, issue_nofail _ c hfail _ _ happ, rfl, by simp, ?_, rfl⟩
    exact ⟨List.Subset.refl _, List.Subset.refl _, List.Subset.refl _,
      List.subset_append_left _ _⟩

/-- Invariant maintained by the fallback scan: the store only grows, and
every Function row is either original or a fallback-candidate row. -/
def FbInv (env : Ctx) (nm : String) (c0 c : Conn) : Prop :=
  StoreSub c0.store c.store ∧
    (∀ r ∈ c.store.funcs, r ∈ c0.store.funcs ∨ r ∈ fallbackRows env nm) ∧
    c.fail = []

theorem fallbackFile_spec (env : Ctx) (nm : String) (c0 : Conn) (cid : String)
    (sf : SrcFile) (hcidesc : InEsc cid)
    (hcaller : ∃ rc ∈ c0.store.funcs, rc.id = cid)
    (hcompat : ∀ r1, (r1 ∈ c0.store.funcs ∨ r1 ∈ fallbackRows env nm) →
      ∀ r2 ∈ fallbackRows env nm, r1.id = r2.id → r1 = r2) :
    ∀ (fns : List TsNode) (c : Conn),
    (∀ fn ∈ fns, isFunctionLikeDeclaration fn = true) →
    (∀ fn ∈ fns, functionRowOf sf fn ∈ fallbackRows env nm) →
    FbInv env nm c0 c →
    FbInv env nm c0 (fallbackFile sf cid fns c) ∧
    ∀ fn ∈ fns, (cid, (functionRowOf sf fn).id) ∈
      (fallbackFile sf cid fns c).store.calls
  | [], c, _, _, hinv => ⟨hinv, fun fn h => absurd h (List.not_mem_nil fn)⟩
  | fn0 :: rest, c, hfl, hrows, hinv => by
    unfold fallbackFile
    have hrow0 : functionRowOf sf fn0 ∈ fallbackRows env nm :=
      hrows fn0 (List.mem_cons_self _ _)
    have hcompat' : ∀ r1 ∈ c.store.funcs,
        r1.id = (functionRowOf sf fn0).id → r1 = functionRowOf sf fn0 :=
      fun r1 h1 hid =>
        hcompat r1 (hinv.2.1 r1 h1) (functionRowOf sf fn0) hrow0 hid
    obtain ⟨c2, hcg, hfail2, hmem2, hsub2, hchar2⟩ :=
      createOrGet_success sf fn0 c (hfl fn0 (List.mem_cons_self _ _))
        hinv.2.2 hcompat'
    rw [hcg]
    dsimp only
    obtain ⟨rc, hrc, hcid⟩ := hcaller
    obtain ⟨c3, hmc, hfail3, hedge3, hsub3, hfuncs3⟩ :=
      issue_mergeCalls_adds cid (functionRowOf sf fn0).id c2 hfail2
        ⟨rc, hsub2.2.1 (hinv.1.2.1 hrc), hcid⟩
        ⟨functionRowOf sf fn0, hmem2, rfl⟩
    rw [hmc]
    dsimp only
    have hinv3 : FbInv env nm c0 c3 := by
      refine ⟨storeSub_trans (storeSub_trans hinv.1 hsub2) hsub3, ?_, hfail3⟩
      intro r hr
      rw [hfuncs3] at hr
      rcases hchar2 r hr with h | h
      · exact hinv.2.1 r h
      · exact Or.inr (h ▸ hrow0)
    have hrec := fallbackFile_spec env nm c0 cid sf hcidesc ⟨rc, hrc, hcid⟩
      hcompat rest c3
      (fun fn h => hfl fn (List.mem_cons_of_mem _ h))
      (fun fn h => hrows fn (List.mem_cons_of_mem _ h)) hinv3
    refine ⟨hrec.1, ?_⟩
    intro fn hfn
    rcases List.mem_cons.mp hfn with rfl | hmem
    · exact (fallbackFile_par sf cid hcidesc rest c3).1.2.2.2 hedge3
    · exact hrec.2 fn hmem

theorem fallbackGo_spec (env : Ctx) (nm : String) (c0 : Conn) (cid : String)
    (hcidesc : InEsc cid)
    (hcaller : ∃ rc ∈ c0.store.funcs, rc.id = cid)
    (hcompat : ∀ r1, (r1 ∈ c0.store.funcs ∨ r1 ∈ fallbackRows env nm) →
      ∀ r2 ∈ fallbackRows env nm, r1.id = r2.id → r1 = r2) :
    ∀ (fs : List SrcFile) (c : Conn),
    (∀ sf ∈ fs, sf ∈ env.prog.files) →
    FbInv env nm c0 c →
    ∀ sf ∈ fs, sf.isDecl = false → sf.fileName ≠ env.sf.fileName →
    ∀ fn ∈ findFunctionsWithNameInFile sf nm,
      (cid, (functionRowOf sf fn).id) ∈
        (fallbackGo env nm cid fs c).store.calls
  | [], _, _, _ => fun sf h => absurd h (List.not_mem_nil sf)
  | sf0 :: rest, c, hfs, hinv => by
    intro sf hsf hd hne fn hfn
    unfold fallbackGo
    by_cases hd0 : sf0.isDecl = true
    · rw [if_pos hd0]
      rcases List.mem_cons.mp hsf with rfl | hmem
      · rw [hd] at hd0
        exact absurd hd0 Bool.false_ne_true
      · exact fallbackGo_spec env nm c0 cid hcidesc hcaller hcompat rest c
          (fun s h => hfs s (List.mem_cons_of_mem _ h)) hinv
          sf hmem hd hne fn hfn
    · rw [if_neg hd0]
      by_cases hne0 : sf0.fileName = env.sf.fileName
      · rw [if_pos hne0]
        rcases List.mem_cons.mp hsf with rfl | hmem
        · exact absurd hne0 hne
        · exact fallbackGo_spec env nm c0 cid hcidesc hcaller hcompat rest c
            (fun s h => hfs s (List.mem_cons_of_mem _ h)) hinv
            sf hmem hd hne fn hfn
      · rw [if_neg hne0]
        have hd0' : sf0.isDecl = false := Bool.eq_false_iff.mpr hd0
        have hspec := fallbackFile_spec env nm c0 cid sf0 hcidesc hcaller
          hcompat (findFunctionsWithNameInFile sf0 nm) c
          (fun fn' h => findFnsNode_funclike nm sf0.root fn' h)
          (fun fn' h => fallbackRows_mem env nm sf0 fn'
            (hfs sf0 (List.mem_cons_self _ _)) hd0' hne0 h) hinv
        rcases List.mem_cons.mp hsf with rfl | hmem
        · exact (fallbackGo_par env nm cid hcidesc rest _).1.2.2.2
            (hspec.2 fn hfn)
        · exact fallbackGo_spec env nm c0 cid hcidesc hcaller hcompat rest _
            (fun s h => hfs s (List.mem_cons_of_mem _ h)) hspec.1
            sf hmem hd hne fn hfn

/-- C6 amended: the name-based fallback scan runs only when the symbol
lookup returned a symbol whose node resolution failed (not when the lookup
returned nothing — see `lookup_none_skips_fallback`), and only when the
symbol's name is nonempty and neither `undefined` nor `__promisify__`.
Then the call branch is exactly the fallback scan over every known file
(skipping declaration files and the file being parsed), and — absent
conflicting stored rows — every function-like declaration (or variable
initial value) in another non-declaration file whose extracted name equals
the symbol's name receives a Calls edge from the enclosing function. -/
theorem fallback_on_unresolved_symbol (env : Ctx) (fuel : Nat)
    (callerId : String) (n : TsNode) (c : Conn) (sym : Nat)
    (hsym : calleeSymbol env n = some sym)
    (hres : resolveSymbolToNode env fuel sym = some none)
    (hnm : env.prog.checker.symName sym ≠ ""
      ∧ env.prog.checker.symName sym ≠ "undefined"
      ∧ env.prog.checker.symName sym ≠ "__promisify__")
    (hfail : c.fail = [])
    (hcaller : ∃ rc ∈ c.store.funcs, rc.id = escapeCypherString callerId)
    (hcompat : ∀ r1 ∈ c.store.funcs
        ++ fallbackRows env (env.prog.checker.symName sym),
      ∀ r2 ∈ fallbackRows env (env.prog.checker.symName sym),
      r1.id = r2.id → r1 = r2) :
    handleCall env fuel callerId n c =
      some (fallbackGo env (env.prog.checker.symName sym)
        (escapeCypherString callerId) env.prog.files c)
    ∧ ∀ sf ∈ env.prog.files, sf.isDecl = false →
      sf.fileName ≠ env.sf.fileName →
      ∀ fn ∈ findFunctionsWithNameInFile sf (env.prog.checker.symName sym),
        (escapeCypherString callerId, (functionRowOf sf fn).id) ∈
          (fallbackGo env (env.prog.checker.symName sym)
            (escapeCypherString callerId) env.prog.files c).store.calls := by
  constructor
  · unfold handleCall
    rw [hsym]
    dsimp only
    rw [hres]
    dsimp only
    rw [if_pos hnm]
  · intro sf hsf hd hne fn hfn
    exact fallbackGo_spec env (env.prog.checker.symName sym) c
      (escapeCypherString callerId) ⟨callerId, rfl⟩ hcaller
      (fun r1 h1 r2 h2 hid => hcompat r1 (List.mem_append.mpr h1) r2 h2 hid)
      env.prog.files c (fun s h => h)
      ⟨storeSub_refl _, fun r h => Or.inl h, hfail⟩
      sf hsf hd hne fn hfn

/-- Checker for the fallback witness: the callee identifier (node 50)
resolves to symbol 77 which has no declarations, so node resolution yields
`null`; the symbol's name is `h`. -/
def fbChecker : Checker :=
  ⟨fun nid => if nid = 50 then some 77 else none,
    fun _ => [],
    fun sym => if sym = 77 then "h" else "", fun s => s, fun _ => 0,
    fun _ _ => none⟩

def fbEnv : Ctx := ⟨⟨[mSf, nSf], fbChecker⟩, mSf⟩

def fbConn : Conn :=
  ⟨⟨["m.ts", "n.ts"], [⟨"m.ts:0", "m", 1, 1, 1, 22⟩],
    [("m.ts", "m.ts:0")], []⟩, [], []⟩

/-- Witness for `fallback_on_unresolved_symbol`: the call `h()` inside `m`
in `m.ts`, whose symbol resolves to no declaration, defers to the fallback
scan, and the function `h` declared in `n.ts` receives the Calls edge
`m.ts:0 → n.ts:0`. -/
theorem fallback_on_unresolved_symbol_witness :
    handleCall fbEnv 5 "m.ts:0" mCallH fbConn =
      some (fallbackGo fbEnv (fbEnv.prog.checker.symName 77)
        (escapeCypherString "m.ts:0") fbEnv.prog.files fbConn) ∧
    (escapeCypherString "m.ts:0", (functionRowOf nSf nFuncH).id) ∈
      (fallbackGo fbEnv (fbEnv.prog.checker.symName 77)
        (escapeCypherString "m.ts:0") fbEnv.prog.files fbConn).store.calls :=
  ⟨(fallback_on_unresolved_symbol fbEnv 5 "m.ts:0" mCallH fbConn 77 rfl rfl
      (by decide) rfl
      ⟨⟨"m.ts:0", "m", 1, 1, 1, 22⟩, by decide⟩ (by decide)).1,
    (fallback_on_unresolved_symbol fbEnv 5 "m.ts:0" mCallH fbConn 77 rfl rfl
      (by decide) rfl
      ⟨⟨"m.ts:0", "m", 1, 1, 1, 22⟩, by decide⟩ (by decide)).2 nSf
      (List.mem_cons_of_mem _ (List.mem_cons_self _ _)) rfl (by decide)
      nFuncH
      (by
        rw [show findFunctionsWithNameInFile nSf
          (fbEnv.prog.checker.symName 77) = [nFuncH] from rfl]
        exact List.mem_singleton.mpr rfl)⟩
